import Mathlib

/-!
Verification of the transaction layer of the parity-bitcoin fork
(chain transaction codec and the signature-hash engine of script/sign.rs).

The wire codec (the external ser crate) is modelled from the specification:
little-endian integers, canonical CompactSize length prefixes, and
count-prefixed lists, with read/write symmetry.  Bytes are modelled as
natural numbers; the reader rejects values outside 0..255, so every decoded
byte is a real byte.  Rust panics (unchecked vector indexing) are modelled
by an outer Option, with none standing for a panic.
-/

namespace ParityBtc

/-- Wire-level error kind. Modelled from the spec: the ser collaborator
surfaces malformed data and premature end of input as decode errors. -/
inductive SerError where
  | MalformedData : SerError
  | UnexpectedEnd : SerError
deriving DecidableEq, Repr

/-- Reader over a byte stream: consumes a prefix and returns the value and
the unconsumed tail, or a decode error. -/
def ReadM (α : Type) : Type := List Nat → Except SerError (α × List Nat)

def ReadM.pure {α : Type} (a : α) : ReadM α := fun s => Except.ok (a, s)

def ReadM.bind {α β : Type} (m : ReadM α) (f : α → ReadM β) : ReadM β := fun s =>
  match m s with
  | Except.ok (a, s1) => f a s1
  | Except.error e => Except.error e

instance : Monad ReadM where
  pure := ReadM.pure
  bind := ReadM.bind

/-- Failing reader. -/
def rfail {α : Type} (e : SerError) : ReadM α := fun _ => Except.error e

theorem ReadM.bind_def {α β : Type} (m : ReadM α) (f : α → ReadM β) :
    m >>= f = ReadM.bind m f := rfl

theorem ReadM.pure_def {α : Type} (a : α) :
    (Pure.pure a : ReadM α) = ReadM.pure a := rfl

theorem ReadM.pure_apply {α : Type} (a : α) (s : List Nat) :
    (Pure.pure a : ReadM α) s = Except.ok (a, s) := rfl

/-- Successful run of a bind splits into successful runs of both parts. -/
theorem ReadM.bind_ok {α β : Type} {m : ReadM α} {f : α → ReadM β}
    {s s2 : List Nat} {b : β} :
    (m >>= f) s = Except.ok (b, s2) ↔
      ∃ a s1, m s = Except.ok (a, s1) ∧ f a s1 = Except.ok (b, s2) := by
  rw [ReadM.bind_def]
  unfold ReadM.bind
  cases h : m s with
  | ok p =>
    cases p with
    | mk a s1 =>
      constructor
      · intro hb; exact ⟨a, s1, rfl, hb⟩
      · rintro ⟨a2, s3, h2, hb⟩
        cases h2
        exact hb
  | error e =>
    constructor
    · intro hb; cases hb
    · rintro ⟨a2, s3, h2, hb⟩
      cases h2

/-- Read one byte; values outside 0..255 are not bytes and are rejected. -/
def readByte : ReadM Nat := fun s =>
  match s with
  | [] => Except.error SerError.UnexpectedEnd
  | b :: rest => if b < 256 then Except.ok (b, rest) else Except.error SerError.MalformedData

theorem readByte_ok {s rest : List Nat} {b : Nat}
    (h : readByte s = Except.ok (b, rest)) :
    s = b :: rest ∧ b < 256 := by
  unfold readByte at h
  split at h
  · cases h
  · split at h
    · cases h
      constructor
      · rfl
      · assumption
    · cases h

/-- Little-endian byte decomposition of an unsigned value, fixed width. -/
def leBytes : Nat → Nat → List Nat
  | 0, _ => []
  | w + 1, n => n % 256 :: leBytes w (n / 256)

/-- Little-endian fixed-width reader. -/
def readLE : Nat → ReadM Nat
  | 0 => Pure.pure 0
  | w + 1 => do
    let b ← readByte
    let hi ← readLE w
    Pure.pure (b + 256 * hi)

theorem readLE_ok {w : Nat} :
    ∀ {s rest : List Nat} {n : Nat}, readLE w s = Except.ok (n, rest) →
      leBytes w n ++ rest = s ∧ n < 256 ^ w := by
  induction w with
  | zero =>
    intro s rest n h
    cases h
    exact ⟨rfl, Nat.lt_of_lt_of_le Nat.zero_lt_one (by simp)⟩
  | succ w ih =>
    intro s rest n h
    unfold readLE at h
    rw [ReadM.bind_ok] at h
    obtain ⟨b, s1, hb, h⟩ := h
    rw [ReadM.bind_ok] at h
    obtain ⟨hi, s2, hhi, h⟩ := h
    rw [ReadM.pure_apply] at h
    cases h
    obtain ⟨hs, hblt⟩ := readByte_ok hb
    obtain ⟨hs1, hhilt⟩ := ih hhi
    subst hs
    constructor
    · unfold leBytes
      have hmod : (b + 256 * hi) % 256 = b := by omega
      have hdiv : (b + 256 * hi) / 256 = hi := by omega
      rw [hmod, hdiv, ← hs1]
      simp
    · have : 256 ^ (w + 1) = 256 * 256 ^ w := by ring
      omega

/-- Little-endian 16-bit word. -/
def u16LE (n : Nat) : List Nat := leBytes 2 n

/-- Little-endian 32-bit word. -/
def u32LE (n : Nat) : List Nat := leBytes 4 n

/-- Little-endian 64-bit word. -/
def u64LE (n : Nat) : List Nat := leBytes 8 n

def readU16 : ReadM Nat := readLE 2

def readU32 : ReadM Nat := readLE 4

def readU64 : ReadM Nat := readLE 8

theorem readU32_ok {s rest : List Nat} {n : Nat}
    (h : readU32 s = Except.ok (n, rest)) :
    u32LE n ++ rest = s ∧ n < 2 ^ 32 := by
  have := readLE_ok h
  constructor
  · exact this.1
  · have h2 : (256 : Nat) ^ 4 = 2 ^ 32 := by norm_num
    rw [← h2]
    exact this.2

theorem readU64_ok {s rest : List Nat} {n : Nat}
    (h : readU64 s = Except.ok (n, rest)) :
    u64LE n ++ rest = s ∧ n < 2 ^ 64 := by
  have := readLE_ok h
  constructor
  · exact this.1
  · have h2 : (256 : Nat) ^ 8 = 2 ^ 64 := by norm_num
    rw [← h2]
    exact this.2

/-- Canonical Bitcoin CompactSize encoding of a length. Modelled from the
spec: size-prefixed lists with read/write symmetry. -/
def compactSize (n : Nat) : List Nat :=
  if n < 253 then [n]
  else if n < 2 ^ 16 then 253 :: u16LE n
  else if n < 2 ^ 32 then 254 :: u32LE n
  else 255 :: u64LE n

/-- Canonical CompactSize reader: non-minimal encodings are malformed, which
realizes the read/write symmetry the core relies on. -/
def readCompactSize : ReadM Nat := do
  let b ← readByte
  if b < 253 then Pure.pure b
  else if b = 253 then do
    let n ← readU16
    if n < 253 then rfail SerError.MalformedData else Pure.pure n
  else if b = 254 then do
    let n ← readU32
    if n < 2 ^ 16 then rfail SerError.MalformedData else Pure.pure n
  else do
    let n ← readU64
    if n < 2 ^ 32 then rfail SerError.MalformedData else Pure.pure n

theorem readCompactSize_ok {s rest : List Nat} {n : Nat}
    (h : readCompactSize s = Except.ok (n, rest)) :
    compactSize n ++ rest = s := by
  unfold readCompactSize at h
  rw [ReadM.bind_ok] at h
  obtain ⟨b, s1, hb, h⟩ := h
  obtain ⟨hs, hblt⟩ := readByte_ok hb
  subst hs
  by_cases h1 : b < 253
  · rw [if_pos h1, ReadM.pure_apply] at h
    cases h
    unfold compactSize
    rw [if_pos h1]
    simp
  · rw [if_neg h1] at h
    by_cases h2 : b = 253
    · rw [if_pos h2] at h
      rw [ReadM.bind_ok] at h
      obtain ⟨m, s2, hm, h⟩ := h
      have hle := readLE_ok hm
      by_cases h3 : m < 253
      · rw [if_pos h3] at h
        cases h
      · rw [if_neg h3, ReadM.pure_apply] at h
        cases h
        unfold compactSize
        rw [if_neg h3, if_pos (by have := hle.2; norm_num at this ⊢; omega)]
        rw [h2, ← hle.1]
        rfl
    · rw [if_neg h2] at h
      by_cases h4 : b = 254
      · rw [if_pos h4] at h
        rw [ReadM.bind_ok] at h
        obtain ⟨m, s2, hm, h⟩ := h
        have hle := readU32_ok hm
        by_cases h5 : m < 2 ^ 16
        · rw [if_pos h5] at h
          cases h
        · rw [if_neg h5, ReadM.pure_apply] at h
          cases h
          unfold compactSize
          rw [if_neg (by norm_num at h5 ⊢; omega), if_neg h5, if_pos hle.2]
          rw [h4, ← hle.1]
          rfl
      · rw [if_neg h4] at h
        rw [ReadM.bind_ok] at h
        obtain ⟨m, s2, hm, h⟩ := h
        have hle := readU64_ok hm
        by_cases h6 : m < 2 ^ 32
        · rw [if_pos h6] at h
          cases h
        · rw [if_neg h6, ReadM.pure_apply] at h
          cases h
          unfold compactSize
          rw [if_neg (by norm_num at h6 ⊢; omega),
              if_neg (by norm_num at h6 ⊢; omega), if_neg h6]
          have hb255 : b = 255 := by omega
          rw [hb255, ← hle.1]
          rfl

/-- Read exactly n raw bytes. -/
def readBytesN : Nat → ReadM (List Nat)
  | 0 => Pure.pure []
  | n + 1 => do
    let b ← readByte
    let bs ← readBytesN n
    Pure.pure (b :: bs)

theorem readBytesN_ok {n : Nat} :
    ∀ {s rest l : List Nat}, readBytesN n s = Except.ok (l, rest) →
      l ++ rest = s ∧ l.length = n := by
  induction n with
  | zero =>
    intro s rest l h
    cases h
    exact ⟨rfl, rfl⟩
  | succ n ih =>
    intro s rest l h
    unfold readBytesN at h
    rw [ReadM.bind_ok] at h
    obtain ⟨b, s1, hb, h⟩ := h
    rw [ReadM.bind_ok] at h
    obtain ⟨bs, s2, hbs, h⟩ := h
    rw [ReadM.pure_apply] at h
    cases h
    obtain ⟨hs, _⟩ := readByte_ok hb
    obtain ⟨hs1, hlen⟩ := ih hbs
    subst hs
    rw [← hs1]
    constructor
    · rfl
    · simp [hlen]

/-- Serialization of a variable-length byte string: CompactSize length
prefix followed by the raw bytes. -/
def serBytes (bs : List Nat) : List Nat := compactSize bs.length ++ bs

/-- Reader for a length-prefixed byte string. -/
def readBytes : ReadM (List Nat) := do
  let n ← readCompactSize
  readBytesN n

theorem readBytes_ok {s rest l : List Nat}
    (h : readBytes s = Except.ok (l, rest)) :
    serBytes l ++ rest = s := by
  unfold readBytes at h
  rw [ReadM.bind_ok] at h
  obtain ⟨n, s1, hn, h⟩ := h
  obtain ⟨hl, hlen⟩ := readBytesN_ok h
  have hc := readCompactSize_ok hn
  unfold serBytes
  rw [hlen, List.append_assoc, hl, hc]

/-- Read n successive items with a component reader. -/
def readN {α : Type} : Nat → ReadM α → ReadM (List α)
  | 0, _ => Pure.pure []
  | n + 1, de => do
    let a ← de
    let xs ← readN n de
    Pure.pure (a :: xs)

/-- Serialization of a count-prefixed list. -/
def serList {α : Type} (ser : α → List Nat) (xs : List α) : List Nat :=
  compactSize xs.length ++ (xs.map ser).flatten

/-- Reader for a count-prefixed list. -/
def readList {α : Type} (de : ReadM α) : ReadM (List α) := do
  let n ← readCompactSize
  readN n de

/-- Decode-encode inverse property of a component codec. -/
def SerInv {α : Type} (ser : α → List Nat) (de : ReadM α) : Prop :=
  ∀ s a rest, de s = Except.ok (a, rest) → ser a ++ rest = s

theorem readN_ok {α : Type} {ser : α → List Nat} {de : ReadM α}
    (hinv : SerInv ser de) {n : Nat} :
    ∀ {s rest : List Nat} {xs : List α}, readN n de s = Except.ok (xs, rest) →
      (xs.map ser).flatten ++ rest = s ∧ xs.length = n := by
  induction n with
  | zero =>
    intro s rest xs h
    cases h
    exact ⟨rfl, rfl⟩
  | succ n ih =>
    intro s rest xs h
    unfold readN at h
    rw [ReadM.bind_ok] at h
    obtain ⟨a, s1, ha, h⟩ := h
    rw [ReadM.bind_ok] at h
    obtain ⟨tl, s2, htl, h⟩ := h
    rw [ReadM.pure_apply] at h
    cases h
    obtain ⟨hs1, hlen⟩ := ih htl
    constructor
    · rw [List.map_cons, List.flatten_cons, List.append_assoc, hs1]
      exact hinv s a s1 ha
    · simp [hlen]

theorem readList_ok {α : Type} {ser : α → List Nat} {de : ReadM α}
    (hinv : SerInv ser de) {s rest : List Nat} {xs : List α}
    (h : readList de s = Except.ok (xs, rest)) :
    serList ser xs ++ rest = s := by
  unfold readList at h
  rw [ReadM.bind_ok] at h
  obtain ⟨n, s1, hn, h⟩ := h
  obtain ⟨hs1, hlen⟩ := readN_ok hinv h
  unfold serList
  rw [hlen, List.append_assoc, hs1, readCompactSize_ok hn]

theorem serInv_readBytes : SerInv serBytes readBytes :=
  fun _ _ _ h => readBytes_ok h

/-! Fixed-width opaque byte blocks. Widths are modelled from the spec:
the hash crate is an external collaborator whose types are opaque
fixed-width blocks serialized verbatim (H64, H256, H512, the Sapling
Groth16 proof, and the Sprout and Sapling note ciphertexts). -/

def zkProofSaplingLen : Nat := 192

def encCipherTextLen : Nat := 580

def outCipherTextLen : Nat := 80

def cipherTextLen : Nat := 601

def h256Default : List Nat := List.replicate 32 0

def h512Default : List Nat := List.replicate 64 0

/-! Transaction data model, from src/chain/src/transaction.rs. -/

structure OutPoint where
  hash : List Nat
  index : Nat
deriving DecidableEq, Repr

structure TransactionInput where
  previous_output : OutPoint
  script_sig : List Nat
  sequence : Nat
  script_witness : List (List Nat)
deriving DecidableEq, Repr

structure TransactionOutput where
  value : Nat
  script_pubkey : List Nat
deriving DecidableEq, Repr

/-- Default placeholder output: value u64 MAX and empty script, used when a
sighash variant blanks an output slot. -/
def defaultTransactionOutput : TransactionOutput :=
  { value := 2 ^ 64 - 1, script_pubkey := [] }

structure ShieldedSpend where
  cv : List Nat
  anchor : List Nat
  nullifier : List Nat
  rk : List Nat
  zkproof : List Nat
  spend_auth_sig : List Nat
deriving DecidableEq, Repr

structure ShieldedOutput where
  cv : List Nat
  cmu : List Nat
  ephemeral_key : List Nat
  enc_cipher_text : List Nat
  out_cipher_text : List Nat
  zkproof : List Nat
deriving DecidableEq, Repr

structure JoinSplit where
  v_pub_old : List Nat
  v_pub_new : List Nat
  anchor : List Nat
  nullifier0 : List Nat
  nullifier1 : List Nat
  commitment0 : List Nat
  commitment1 : List Nat
  ephemeral_key : List Nat
  random_seed : List Nat
  mac0 : List Nat
  mac1 : List Nat
  zkproof : List Nat
  ciphertext0 : List Nat
  ciphertext1 : List Nat
deriving DecidableEq, Repr

structure Transaction where
  version : Int
  overwintered : Bool
  version_group_id : Nat
  inputs : List TransactionInput
  outputs : List TransactionOutput
  lock_time : Nat
  expiry_height : Nat
  shielded_spends : List ShieldedSpend
  shielded_outputs : List ShieldedOutput
  join_splits : List JoinSplit
  value_balance : Nat
  join_split_pubkey : List Nat
  join_split_sig : List Nat
  binding_sig : List Nat
deriving DecidableEq, Repr

def TransactionInput.has_witness (i : TransactionInput) : Bool :=
  !i.script_witness.isEmpty

def Transaction.has_witness (t : Transaction) : Bool :=
  t.inputs.any TransactionInput.has_witness

/-- Saturating sum of the output values, from Transaction::total_spends. -/
def totalSpendsLoop : Nat → List TransactionOutput → Nat
  | result, [] => result
  | result, o :: rest =>
    if 2 ^ 64 - 1 - result < o.value then 2 ^ 64 - 1
    else totalSpendsLoop (result + o.value) rest

def Transaction.total_spends (t : Transaction) : Nat :=
  totalSpendsLoop 0 t.outputs

/-! Component serializers and readers. -/

def serOutPoint (p : OutPoint) : List Nat := p.hash ++ u32LE p.index

def readOutPoint : ReadM OutPoint := do
  let h ← readBytesN 32
  let i ← readU32
  Pure.pure { hash := h, index := i }

def serInput (i : TransactionInput) : List Nat :=
  serOutPoint i.previous_output ++ serBytes i.script_sig ++ u32LE i.sequence

def readInput : ReadM TransactionInput := do
  let p ← readOutPoint
  let sc ← readBytes
  let sq ← readU32
  Pure.pure { previous_output := p, script_sig := sc, sequence := sq, script_witness := [] }

def serOutput (o : TransactionOutput) : List Nat :=
  u64LE o.value ++ serBytes o.script_pubkey

def readOutput : ReadM TransactionOutput := do
  let v ← readU64
  let sc ← readBytes
  Pure.pure { value := v, script_pubkey := sc }

def serShieldedSpend (s : ShieldedSpend) : List Nat :=
  s.cv ++ s.anchor ++ s.nullifier ++ s.rk ++ s.zkproof ++ s.spend_auth_sig

def readShieldedSpend : ReadM ShieldedSpend := do
  let cv ← readBytesN 32
  let anchor ← readBytesN 32
  let nullifier ← readBytesN 32
  let rk ← readBytesN 32
  let zkproof ← readBytesN zkProofSaplingLen
  let sas ← readBytesN 64
  Pure.pure { cv := cv, anchor := anchor, nullifier := nullifier, rk := rk,
              zkproof := zkproof, spend_auth_sig := sas }

def serShieldedOutput (s : ShieldedOutput) : List Nat :=
  s.cv ++ s.cmu ++ s.ephemeral_key ++ s.enc_cipher_text ++ s.out_cipher_text ++ s.zkproof

def readShieldedOutput : ReadM ShieldedOutput := do
  let cv ← readBytesN 32
  let cmu ← readBytesN 32
  let ek ← readBytesN 32
  let ect ← readBytesN encCipherTextLen
  let oct ← readBytesN outCipherTextLen
  let zkproof ← readBytesN zkProofSaplingLen
  Pure.pure { cv := cv, cmu := cmu, ephemeral_key := ek, enc_cipher_text := ect,
              out_cipher_text := oct, zkproof := zkproof }

def serJoinSplit (j : JoinSplit) : List Nat :=
  j.v_pub_old ++ j.v_pub_new ++ j.anchor ++ j.nullifier0 ++ j.nullifier1 ++
  j.commitment0 ++ j.commitment1 ++ j.ephemeral_key ++ j.random_seed ++
  j.mac0 ++ j.mac1 ++ j.zkproof ++ j.ciphertext0 ++ j.ciphertext1

def readJoinSplit : ReadM JoinSplit := do
  let vpo ← readBytesN 8
  let vpn ← readBytesN 8
  let anchor ← readBytesN 32
  let n0 ← readBytesN 32
  let n1 ← readBytesN 32
  let c0 ← readBytesN 32
  let c1 ← readBytesN 32
  let ek ← readBytesN 32
  let rs ← readBytesN 32
  let m0 ← readBytesN 32
  let m1 ← readBytesN 32
  let zk ← readBytesN zkProofSaplingLen
  let ct0 ← readBytesN cipherTextLen
  let ct1 ← readBytesN cipherTextLen
  Pure.pure { v_pub_old := vpo, v_pub_new := vpn, anchor := anchor,
              nullifier0 := n0, nullifier1 := n1, commitment0 := c0, commitment1 := c1,
              ephemeral_key := ek, random_seed := rs, mac0 := m0, mac1 := m1,
              zkproof := zk, ciphertext0 := ct0, ciphertext1 := ct1 }

theorem serInv_readOutPoint : SerInv serOutPoint readOutPoint := by
  intro s a rest h
  unfold readOutPoint at h
  rw [ReadM.bind_ok] at h
  obtain ⟨hsh, s1, hh, h⟩ := h
  rw [ReadM.bind_ok] at h
  obtain ⟨i, s2, hi, h⟩ := h
  rw [ReadM.pure_apply] at h
  cases h
  simp only [serOutPoint, List.append_assoc]
  rw [(readU32_ok hi).1, (readBytesN_ok hh).1]

theorem serInv_readInput : SerInv serInput readInput := by
  intro s a rest h
  unfold readInput at h
  rw [ReadM.bind_ok] at h
  obtain ⟨p, s1, hp, h⟩ := h
  rw [ReadM.bind_ok] at h
  obtain ⟨sc, s2, hsc, h⟩ := h
  rw [ReadM.bind_ok] at h
  obtain ⟨sq, s3, hsq, h⟩ := h
  rw [ReadM.pure_apply] at h
  cases h
  simp only [serInput, List.append_assoc]
  rw [(readU32_ok hsq).1, readBytes_ok hsc, serInv_readOutPoint s p s1 hp]

theorem serInv_readOutput : SerInv serOutput readOutput := by
  intro s a rest h
  unfold readOutput at h
  rw [ReadM.bind_ok] at h
  obtain ⟨v, s1, hv, h⟩ := h
  rw [ReadM.bind_ok] at h
  obtain ⟨sc, s2, hsc, h⟩ := h
  rw [ReadM.pure_apply] at h
  cases h
  simp only [serOutput, List.append_assoc]
  rw [readBytes_ok hsc, (readU64_ok hv).1]

theorem serInv_readShieldedSpend : SerInv serShieldedSpend readShieldedSpend := by
  intro s a rest h
  unfold readShieldedSpend at h
  rw [ReadM.bind_ok] at h
  obtain ⟨cv, s1, h1, h⟩ := h
  rw [ReadM.bind_ok] at h
  obtain ⟨anchor, s2, h2, h⟩ := h
  rw [ReadM.bind_ok] at h
  obtain ⟨nf, s3, h3, h⟩ := h
  rw [ReadM.bind_ok] at h
  obtain ⟨rk, s4, h4, h⟩ := h
  rw [ReadM.bind_ok] at h
  obtain ⟨zk, s5, h5, h⟩ := h
  rw [ReadM.bind_ok] at h
  obtain ⟨sas, s6, h6, h⟩ := h
  rw [ReadM.pure_apply] at h
  cases h
  simp only [serShieldedSpend, List.append_assoc]
  rw [(readBytesN_ok h6).1, (readBytesN_ok h5).1, (readBytesN_ok h4).1,
      (readBytesN_ok h3).1, (readBytesN_ok h2).1, (readBytesN_ok h1).1]

theorem serInv_readShieldedOutput : SerInv serShieldedOutput readShieldedOutput := by
  intro s a rest h
  unfold readShieldedOutput at h
  rw [ReadM.bind_ok] at h
  obtain ⟨cv, s1, h1, h⟩ := h
  rw [ReadM.bind_ok] at h
  obtain ⟨cmu, s2, h2, h⟩ := h
  rw [ReadM.bind_ok] at h
  obtain ⟨ek, s3, h3, h⟩ := h
  rw [ReadM.bind_ok] at h
  obtain ⟨ect, s4, h4, h⟩ := h
  rw [ReadM.bind_ok] at h
  obtain ⟨oct, s5, h5, h⟩ := h
  rw [ReadM.bind_ok] at h
  obtain ⟨zk, s6, h6, h⟩ := h
  rw [ReadM.pure_apply] at h
  cases h
  simp only [serShieldedOutput, List.append_assoc]
  rw [(readBytesN_ok h6).1, (readBytesN_ok h5).1, (readBytesN_ok h4).1,
      (readBytesN_ok h3).1, (readBytesN_ok h2).1, (readBytesN_ok h1).1]

theorem serInv_readJoinSplit : SerInv serJoinSplit readJoinSplit := by
  intro s a rest h
  unfold readJoinSplit at h
  rw [ReadM.bind_ok] at h
  obtain ⟨vpo, s1, h1, h⟩ := h
  rw [ReadM.bind_ok] at h
  obtain ⟨vpn, s2, h2, h⟩ := h
  rw [ReadM.bind_ok] at h
  obtain ⟨anchor, s3, h3, h⟩ := h
  rw [ReadM.bind_ok] at h
  obtain ⟨n0, s4, h4, h⟩ := h
  rw [ReadM.bind_ok] at h
  obtain ⟨n1, s5, h5, h⟩ := h
  rw [ReadM.bind_ok] at h
  obtain ⟨c0, s6, h6, h⟩ := h
  rw [ReadM.bind_ok] at h
  obtain ⟨c1, s7, h7, h⟩ := h
  rw [ReadM.bind_ok] at h
  obtain ⟨ek, s8, h8, h⟩ := h
  rw [ReadM.bind_ok] at h
  obtain ⟨rs, s9, h9, h⟩ := h
  rw [ReadM.bind_ok] at h
  obtain ⟨m0, s10, h10, h⟩ := h
  rw [ReadM.bind_ok] at h
  obtain ⟨m1, s11, h11, h⟩ := h
  rw [ReadM.bind_ok] at h
  obtain ⟨zk, s12, h12, h⟩ := h
  rw [ReadM.bind_ok] at h
  obtain ⟨ct0, s13, h13, h⟩ := h
  rw [ReadM.bind_ok] at h
  obtain ⟨ct1, s14, h14, h⟩ := h
  rw [ReadM.pure_apply] at h
  cases h
  simp only [serJoinSplit, List.append_assoc]
  rw [(readBytesN_ok h14).1, (readBytesN_ok h13).1, (readBytesN_ok h12).1,
      (readBytesN_ok h11).1, (readBytesN_ok h10).1, (readBytesN_ok h9).1,
      (readBytesN_ok h8).1, (readBytesN_ok h7).1, (readBytesN_ok h6).1,
      (readBytesN_ok h5).1, (readBytesN_ok h4).1, (readBytesN_ok h3).1,
      (readBytesN_ok h2).1, (readBytesN_ok h1).1]

/-! Transaction codec, from the Serializable and Deserializable
implementations for Transaction. -/

/-- Overwinter flag carried in the top bit of the 32-bit header word. -/
def headerOverwintered (header : Nat) : Bool := decide (2 ^ 31 ≤ header)

/-- Version extracted from the 32-bit header word: the low 31 bits when the
overwinter bit is set, the whole word otherwise. -/
def headerVersion (header : Nat) : Int :=
  if 2 ^ 31 ≤ header then ((header % 2 ^ 31 : Nat) : Int) else (header : Int)

/-- Header word written when serializing: the version (as a 32-bit
two-complement word) with the overwinter bit forced on when set. -/
def headerWord (version : Int) (ow : Bool) : Nat :=
  match ow with
  | true => (version.emod (2 ^ 32)).toNat ||| 2 ^ 31
  | false => (version.emod (2 ^ 32)).toNat

/-- Input list with the segwit marker detection: an empty input list on a
non-overwintered transaction announces the witness layout, whose flag byte
must equal 1; the input list is then re-read. -/
def readInputsAndFlag (overwintered : Bool) : ReadM (List TransactionInput × Bool) := do
  let inputs ← readList readInput
  if inputs.isEmpty = true ∧ overwintered = false then do
    let wf ← readByte
    if wf ≠ 1 then rfail SerError.MalformedData
    else do
      let inputs2 ← readList readInput
      Pure.pure (inputs2, true)
  else Pure.pure (inputs, false)

/-- Witness stacks read after the output list, one per input in input
order. -/
def readWitnessStacks : List TransactionInput → ReadM (List TransactionInput)
  | [] => Pure.pure []
  | i :: is => do
    let w ← readList readBytes
    let rest ← readWitnessStacks is
    Pure.pure ({ i with script_witness := w } :: rest)

/-- Overwinter and Sapling extra fields (expiry height, value balance,
shielded spend and output lists), gated on version and the overwinter
flag. -/
def readOverwinterExtras (ow : Bool) (version : Int) :
    ReadM (Nat × Nat × List ShieldedSpend × List ShieldedOutput) := do
  if ow = true ∧ 3 ≤ version then do
    let e ← readU32
    if 4 ≤ version then do
      let vb ← readU64
      let ss ← readList readShieldedSpend
      let so ← readList readShieldedOutput
      Pure.pure (e, vb, ss, so)
    else Pure.pure (e, 0, ([] : List ShieldedSpend), ([] : List ShieldedOutput))
  else Pure.pure (0, 0, ([] : List ShieldedSpend), ([] : List ShieldedOutput))

/-- Join-split section: the list, then the public key and signature when the
list is non-empty; present only for version 2 or overwintered
transactions. -/
def readJoinSplitsSection (ow : Bool) (version : Int) :
    ReadM (List JoinSplit × List Nat × List Nat) := do
  if version = 2 ∨ ow = true then do
    let js ← readList readJoinSplit
    if 0 < js.length then do
      let pk ← readBytesN 32
      let sg ← readBytesN 64
      Pure.pure (js, pk, sg)
    else Pure.pure (js, h256Default, h512Default)
  else Pure.pure (([] : List JoinSplit), h256Default, h512Default)

/-- Version group id, present only on overwintered transactions. -/
def readVersionGroupId (ow : Bool) : ReadM Nat :=
  if ow = true then readU32 else Pure.pure 0

/-- Witness stacks pass, taken only when the witness marker was seen. -/
def readWitnessSection (rw : Bool) (is : List TransactionInput) :
    ReadM (List TransactionInput) :=
  if rw = true then readWitnessStacks is else Pure.pure is

/-- Binding signature, present only under the Sapling gate. -/
def readBindingSig (c : Prop) [Decidable c] : ReadM (List Nat) :=
  if c then readBytesN 64 else Pure.pure h512Default

/-- Transaction decoder; the returned flag records whether the witness
layout was taken (read_witness in the source). -/
def deserializeTx : ReadM (Transaction × Bool) := do
  let header ← readU32
  let version_group_id ← readVersionGroupId (headerOverwintered header)
  let iw ← readInputsAndFlag (headerOverwintered header)
  let outputs ← readList readOutput
  let inputs ← readWitnessSection iw.2 iw.1
  let lock_time ← readU32
  let owx ← readOverwinterExtras (headerOverwintered header) (headerVersion header)
  let jsx ← readJoinSplitsSection (headerOverwintered header) (headerVersion header)
  let binding_sig ← readBindingSig
    (headerOverwintered header = true ∧ 4 ≤ headerVersion header ∧
      ¬(owx.2.2.1.length = 0 ∧ owx.2.2.2.length = 0))
  Pure.pure ({ version := headerVersion header, overwintered := headerOverwintered header,
               version_group_id := version_group_id, inputs := inputs, outputs := outputs,
               lock_time := lock_time, expiry_height := owx.1,
               shielded_spends := owx.2.2.1, shielded_outputs := owx.2.2.2,
               join_splits := jsx.1, value_balance := owx.2.1,
               join_split_pubkey := jsx.2.1, join_split_sig := jsx.2.2,
               binding_sig := binding_sig }, iw.2)

/-- Non-witness layout of the serializer (the false arm of the match in
Serializable for Transaction). -/
def serializeTxRaw (tx : Transaction) : List Nat :=
  u32LE (headerWord tx.version tx.overwintered) ++
  (if tx.overwintered = true then u32LE tx.version_group_id else []) ++
  serList serInput tx.inputs ++
  serList serOutput tx.outputs ++
  u32LE tx.lock_time ++
  (if tx.overwintered = true ∧ 3 ≤ tx.version then
    u32LE tx.expiry_height ++
    (if 4 ≤ tx.version then
      u64LE tx.value_balance ++ serList serShieldedSpend tx.shielded_spends ++
      serList serShieldedOutput tx.shielded_outputs
    else [])
  else []) ++
  (if tx.version = 2 ∨ tx.overwintered = true then
    serList serJoinSplit tx.join_splits ++
    (if 0 < tx.join_splits.length then tx.join_split_pubkey ++ tx.join_split_sig else [])
  else []) ++
  (if 4 ≤ tx.version ∧ tx.overwintered = true ∧
      ¬(tx.shielded_outputs.length = 0 ∧ tx.shielded_spends.length = 0) then
    tx.binding_sig
  else [])

/-- Witness layout of the serializer: plain version word, marker 0 and flag
1, inputs, outputs, the witness stacks in input order, lock time; the
overwinter, shielded and join-split fields are all skipped. -/
def serializeTxWitness (tx : Transaction) : List Nat :=
  u32LE ((tx.version.emod (2 ^ 32)).toNat) ++ [0, 1] ++
  serList serInput tx.inputs ++
  serList serOutput tx.outputs ++
  (tx.inputs.map (fun i => serList serBytes i.script_witness)).flatten ++
  u32LE tx.lock_time

/-- Serializer with the caller-supplied witness-inclusion flag
(serialize_with_flags); the witness layout is used only when the flag is on
and the transaction actually has witness data. -/
def serializeTx (tx : Transaction) (includeWitness : Bool) : List Nat :=
  if includeWitness && tx.has_witness then serializeTxWitness tx else serializeTxRaw tx

/-! Round-trip lemmas for the transaction codec. -/

theorem serInv_readU32 : SerInv u32LE readU32 :=
  fun _ _ _ h => (readU32_ok h).1

theorem serInv_readU64 : SerInv u64LE readU64 :=
  fun _ _ _ h => (readU64_ok h).1

theorem serInv_readBytesN (n : Nat) : SerInv (fun l => l) (readBytesN n) :=
  fun _ _ _ h => (readBytesN_ok h).1

/-- Consumption shape of an optional field read. -/
theorem ite_read_segment {c : Prop} [Decidable c] {α : Type} {ser : α → List Nat}
    {de : ReadM α} (hinv : SerInv ser de) {d : α} {s rest : List Nat} {a : α}
    (h : (if c then de else Pure.pure d) s = Except.ok (a, rest)) :
    (if c then ser a else []) ++ rest = s := by
  by_cases hc : c
  · rw [if_pos hc] at h ⊢
    exact hinv _ _ _ h
  · rw [if_neg hc] at h ⊢
    rw [ReadM.pure_apply] at h
    cases h
    rfl

theorem serList_congr_of_map_eq {α : Type} {ser : α → List Nat} {xs ys : List α}
    (h : xs.map ser = ys.map ser) : serList ser xs = serList ser ys := by
  unfold serList
  have hlen : xs.length = ys.length := by
    have := congrArg List.length h
    simpa using this
  rw [hlen, h]

theorem readInputsAndFlag_ok {ow : Bool} {s rest : List Nat}
    {res : List TransactionInput × Bool}
    (h : readInputsAndFlag ow s = Except.ok (res, rest)) :
    (res.2 = false ∧ serList serInput res.1 ++ rest = s)
    ∨ (res.2 = true ∧ ow = false ∧ 0 :: 1 :: (serList serInput res.1 ++ rest) = s) := by
  unfold readInputsAndFlag at h
  rw [ReadM.bind_ok] at h
  obtain ⟨inputs, s1, hin, h⟩ := h
  by_cases hc : inputs.isEmpty = true ∧ ow = false
  · rw [if_pos hc] at h
    rw [ReadM.bind_ok] at h
    obtain ⟨wf, s2, hwf, h⟩ := h
    by_cases hwf1 : wf ≠ 1
    · rw [if_pos hwf1] at h
      cases h
    · rw [if_neg hwf1] at h
      rw [ReadM.bind_ok] at h
      obtain ⟨inputs2, s3, hin2, h⟩ := h
      rw [ReadM.pure_apply] at h
      cases h
      right
      refine ⟨rfl, hc.2, ?_⟩
      have hempty : inputs = [] := List.isEmpty_iff.mp hc.1
      subst hempty
      have h1 : serList serInput ([] : List TransactionInput) ++ s1 = s :=
        readList_ok serInv_readInput hin
      have h2 : serList serInput inputs2 ++ rest = s2 :=
        readList_ok serInv_readInput hin2
      obtain ⟨hs1, hwlt⟩ := readByte_ok hwf
      have hwf1v : wf = 1 := by omega
      subst hwf1v
      rw [h2, ← hs1, ← h1]
      rfl
  · rw [if_neg hc] at h
    rw [ReadM.pure_apply] at h
    cases h
    exact Or.inl ⟨rfl, readList_ok serInv_readInput hin⟩

theorem readWitnessStacks_ok :
    ∀ {is : List TransactionInput} {s rest : List Nat} {is2 : List TransactionInput},
      readWitnessStacks is s = Except.ok (is2, rest) →
      (is2.map (fun i => serList serBytes i.script_witness)).flatten ++ rest = s
      ∧ is2.map serInput = is.map serInput := by
  intro is
  induction is with
  | nil =>
    intro s rest is2 h
    cases h
    exact ⟨rfl, rfl⟩
  | cons i is ih =>
    intro s rest is2 h
    unfold readWitnessStacks at h
    rw [ReadM.bind_ok] at h
    obtain ⟨w, s1, hw, h⟩ := h
    rw [ReadM.bind_ok] at h
    obtain ⟨tl, s2, htl, h⟩ := h
    rw [ReadM.pure_apply] at h
    cases h
    obtain ⟨htl1, htl2⟩ := ih htl
    constructor
    · simp only [List.map_cons, List.flatten_cons, List.append_assoc]
      rw [htl1]
      exact readList_ok serInv_readBytes hw
    · simp only [List.map_cons, htl2]
      rfl

theorem readOverwinterExtras_ok {ow : Bool} {v : Int} {s rest : List Nat}
    {x : Nat × Nat × List ShieldedSpend × List ShieldedOutput}
    (h : readOverwinterExtras ow v s = Except.ok (x, rest)) :
    (if ow = true ∧ 3 ≤ v then
      u32LE x.1 ++
      (if 4 ≤ v then
        u64LE x.2.1 ++ serList serShieldedSpend x.2.2.1 ++ serList serShieldedOutput x.2.2.2
      else [])
    else []) ++ rest = s := by
  unfold readOverwinterExtras at h
  by_cases hc : ow = true ∧ 3 ≤ v
  · rw [if_pos hc] at h
    rw [ReadM.bind_ok] at h
    obtain ⟨e, s1, he, h⟩ := h
    by_cases hc2 : 4 ≤ v
    · rw [if_pos hc2] at h
      rw [ReadM.bind_ok] at h
      obtain ⟨vb, s2, hvb, h⟩ := h
      rw [ReadM.bind_ok] at h
      obtain ⟨ss, s3, hss, h⟩ := h
      rw [ReadM.bind_ok] at h
      obtain ⟨so, s4, hso, h⟩ := h
      rw [ReadM.pure_apply] at h
      cases h
      rw [if_pos hc, if_pos hc2]
      simp only [List.append_assoc]
      rw [readList_ok serInv_readShieldedOutput hso, readList_ok serInv_readShieldedSpend hss,
          (readU64_ok hvb).1, (readU32_ok he).1]
    · rw [if_neg hc2] at h
      rw [ReadM.pure_apply] at h
      cases h
      rw [if_pos hc, if_neg hc2]
      simp only [List.append_nil]
      exact (readU32_ok he).1
  · rw [if_neg hc] at h
    rw [ReadM.pure_apply] at h
    cases h
    rw [if_neg hc]
    rfl

theorem readJoinSplitsSection_ok {ow : Bool} {v : Int} {s rest : List Nat}
    {x : List JoinSplit × List Nat × List Nat}
    (h : readJoinSplitsSection ow v s = Except.ok (x, rest)) :
    (if v = 2 ∨ ow = true then
      serList serJoinSplit x.1 ++ (if 0 < x.1.length then x.2.1 ++ x.2.2 else [])
    else []) ++ rest = s := by
  unfold readJoinSplitsSection at h
  by_cases hc : v = 2 ∨ ow = true
  · rw [if_pos hc] at h
    rw [ReadM.bind_ok] at h
    obtain ⟨js, s1, hjs, h⟩ := h
    by_cases hc2 : 0 < js.length
    · rw [if_pos hc2] at h
      rw [ReadM.bind_ok] at h
      obtain ⟨pk, s2, hpk, h⟩ := h
      rw [ReadM.bind_ok] at h
      obtain ⟨sg, s3, hsg, h⟩ := h
      rw [ReadM.pure_apply] at h
      cases h
      rw [if_pos hc, if_pos hc2]
      simp only [List.append_assoc]
      rw [(readBytesN_ok hsg).1, (readBytesN_ok hpk).1, readList_ok serInv_readJoinSplit hjs]
    · rw [if_neg hc2] at h
      rw [ReadM.pure_apply] at h
      cases h
      rw [if_pos hc, if_neg hc2]
      simp only [List.append_nil]
      exact readList_ok serInv_readJoinSplit hjs
  · rw [if_neg hc] at h
    rw [ReadM.pure_apply] at h
    cases h
    rw [if_neg hc]
    rfl

theorem emod_toNat_of_lt {n : Nat} (h : n < 2 ^ 32) :
    (((n : Nat) : Int).emod (2 ^ 32)).toNat = n := by
  have h1 : ((n : Nat) : Int).emod (2 ^ 32) = ((n : Nat) : Int) := by
    apply Int.emod_eq_of_lt
    · exact Int.natCast_nonneg n
    · exact_mod_cast h
  rw [h1]
  exact Int.toNat_natCast n

theorem lor_two_pow_31 {a : Nat} (h : a < 2 ^ 31) : a ||| 2 ^ 31 = a + 2 ^ 31 := by
  have h2 : 2 ^ 31 * 1 + a = 2 ^ 31 * 1 ||| a := Nat.mul_add_lt_is_or h 1
  calc a ||| 2 ^ 31 = 2 ^ 31 ||| a := Nat.lor_comm a (2 ^ 31)
  _ = 2 ^ 31 * 1 ||| a := by rw [Nat.mul_one]
  _ = 2 ^ 31 * 1 + a := h2.symm
  _ = a + 2 ^ 31 := by omega

/-- Encoding the decoded header fields reproduces the header word. -/
theorem headerWord_headerVersion {header : Nat} (hlt : header < 2 ^ 32) :
    headerWord (headerVersion header) (headerOverwintered header) = header := by
  by_cases hb : 2 ^ 31 ≤ header
  · have hd : headerOverwintered header = true := by
      unfold headerOverwintered
      simp only [decide_eq_true_eq]
      exact hb
    have hv : headerVersion header = ((header % 2 ^ 31 : Nat) : Int) := by
      unfold headerVersion
      rw [if_pos hb]
    rw [hd, hv]
    show (((header % 2 ^ 31 : Nat) : Int).emod (2 ^ 32)).toNat ||| 2 ^ 31 = header
    have h1 : (((header % 2 ^ 31 : Nat) : Int).emod (2 ^ 32)).toNat = header % 2 ^ 31 :=
      emod_toNat_of_lt (by omega)
    rw [h1, lor_two_pow_31 (Nat.mod_lt header (by norm_num))]
    omega
  · have hd : headerOverwintered header = false := by
      unfold headerOverwintered
      simp only [decide_eq_false_iff_not]
      exact hb
    have hv : headerVersion header = (header : Int) := by
      unfold headerVersion
      rw [if_neg hb]
    rw [hd, hv]
    show ((header : Int).emod (2 ^ 32)).toNat = header
    exact emod_toNat_of_lt hlt

/-- Claim C1 (amended): decode-then-encode round trip for the transaction
codec, under the side conditions the code actually requires when the
witness layout was taken at decode time: at least one decoded witness stack
is non-empty and the version is not 2. -/
theorem deserialize_serialize_roundtrip
    {bs rest : List Nat} {tx : Transaction} {rw : Bool}
    (h : deserializeTx bs = Except.ok ((tx, rw), rest))
    (hcond : rw = true → tx.has_witness = true ∧ tx.version ≠ 2) :
    serializeTx tx rw ++ rest = bs := by
  unfold deserializeTx at h
  rw [ReadM.bind_ok] at h
  obtain ⟨header, s1, hheader, h⟩ := h
  rw [ReadM.bind_ok] at h
  obtain ⟨vg, s2, hvg, h⟩ := h
  rw [ReadM.bind_ok] at h
  obtain ⟨iw, s3, hiw, h⟩ := h
  obtain ⟨is0, rwf⟩ := iw
  rw [ReadM.bind_ok] at h
  obtain ⟨outputs, s4, hout, h⟩ := h
  rw [ReadM.bind_ok] at h
  obtain ⟨inputs, s5, hinp, h⟩ := h
  rw [ReadM.bind_ok] at h
  obtain ⟨lock_time, s6, hlt, h⟩ := h
  rw [ReadM.bind_ok] at h
  obtain ⟨owx, s7, howx, h⟩ := h
  rw [ReadM.bind_ok] at h
  obtain ⟨jsx, s8, hjsx, h⟩ := h
  rw [ReadM.bind_ok] at h
  obtain ⟨bsig, s9, hbsig, h⟩ := h
  rw [ReadM.pure_apply] at h
  cases h
  obtain ⟨hbs_eq, hhlt⟩ := readU32_ok hheader
  unfold readVersionGroupId at hvg
  unfold readWitnessSection at hinp
  unfold readBindingSig at hbsig
  have hvgseg : (if headerOverwintered header = true then u32LE vg else []) ++ s2 = s1 :=
    ite_read_segment serInv_readU32 hvg
  have houtseg : serList serOutput outputs ++ s4 = s3 := readList_ok serInv_readOutput hout
  have hltseg : u32LE lock_time ++ s6 = s5 := (readU32_ok hlt).1
  have howxseg := readOverwinterExtras_ok howx
  have hjsxseg := readJoinSplitsSection_ok hjsx
  have hbsigseg :
      (if headerOverwintered header = true ∧ 4 ≤ headerVersion header ∧
          ¬(owx.2.2.1.length = 0 ∧ owx.2.2.2.length = 0) then bsig else []) ++ rest = s8 :=
    ite_read_segment (serInv_readBytesN 64) hbsig
  cases rwf with
  | false =>
    rcases readInputsAndFlag_ok hiw with ⟨_, hinseg⟩ | ⟨hbad, _⟩
    · simp only at hinp
      rw [if_neg (by simp)] at hinp
      rw [ReadM.pure_apply] at hinp
      cases hinp
      simp only at hinseg
      have hbsig2 :
          (if 4 ≤ headerVersion header ∧ headerOverwintered header = true ∧
              ¬(owx.2.2.2.length = 0 ∧ owx.2.2.1.length = 0) then bsig else []) ++ rest = s8 := by
        by_cases hc : headerOverwintered header = true ∧ 4 ≤ headerVersion header ∧
            ¬(owx.2.2.1.length = 0 ∧ owx.2.2.2.length = 0)
        · rw [if_pos hc] at hbsigseg
          rw [if_pos ⟨hc.2.1, hc.1, fun hw => hc.2.2 ⟨hw.2, hw.1⟩⟩]
          exact hbsigseg
        · rw [if_neg hc] at hbsigseg
          rw [if_neg (fun hk => hc ⟨hk.2.1, hk.1, fun hw => hk.2.2 ⟨hw.2, hw.1⟩⟩)]
          exact hbsigseg
      simp only [List.append_assoc] at howxseg
      simp only [serializeTx, Bool.false_and, Bool.false_eq_true, if_false,
        serializeTxRaw, List.append_assoc]
      rw [headerWord_headerVersion hhlt]
      rw [hbsig2, hjsxseg, howxseg, hltseg, houtseg, hinseg, hvgseg, hbs_eq]
    · exact Bool.noConfusion hbad
  | true =>
    rcases readInputsAndFlag_ok hiw with ⟨hbad, _⟩ | ⟨_, howf, hinseg⟩
    · exact Bool.noConfusion hbad
    · obtain ⟨hwit, hver2⟩ := hcond rfl
      have hinp2 : readWitnessStacks is0 s4 = Except.ok (inputs, s5) := by
        simpa using hinp
      obtain ⟨hwitseg, hmapeq⟩ := readWitnessStacks_ok hinp2
      simp only at hinseg
      have hlt31 : header < 2 ^ 31 := by
        unfold headerOverwintered at howf
        simpa using howf
      have hvlt : headerVersion header = ((header : Nat) : Int) := by
        unfold headerVersion
        rw [if_neg (by omega)]
      have hver2b : ¬(headerVersion header = 2 ∨ headerOverwintered header = true) := by
        rintro (hv | ho)
        · exact hver2 hv
        · rw [howf] at ho
          cases ho
      rw [howf] at hvgseg
      simp only [Bool.false_eq_true, if_false, List.nil_append] at hvgseg
      rw [howf] at howxseg
      simp only [Bool.false_eq_true, false_and, if_false, List.nil_append] at howxseg
      rw [if_neg hver2b] at hjsxseg
      rw [List.nil_append] at hjsxseg
      have hbsID : rest = s8 := by
        rw [if_neg (by rw [howf]; rintro ⟨hfalse, _⟩; cases hfalse)] at hbsigseg
        rw [List.nil_append] at hbsigseg
        exact hbsigseg
      simp only [serializeTx, hwit, Bool.and_true, Bool.true_and, if_pos,
        serializeTxWitness, List.append_assoc]
      have hhw : (((headerVersion header).emod (2 ^ 32)).toNat) = header := by
        rw [hvlt]
        exact emod_toNat_of_lt hhlt
      rw [hhw]
      rw [serList_congr_of_map_eq hmapeq]
      rw [hbsID, hjsxseg, howxseg, hltseg, hwitseg, houtseg]
      simp only [List.cons_append, List.nil_append]
      rw [hinseg, hvgseg, hbs_eq]

/-! Hash primitives. Modelled from the spec: double-SHA256 and BLAKE2b with
personalization are external collaborators consumed as black boxes with
documented output widths; they are implemented here concretely. -/

def w32mask (n : Nat) : Nat := n % 4294967296

def rotr32 (r x : Nat) : Nat := w32mask ((x >>> r) ||| (x <<< (32 - r)))

def shaBigSigma0 (x : Nat) : Nat := rotr32 2 x ^^^ rotr32 13 x ^^^ rotr32 22 x

def shaBigSigma1 (x : Nat) : Nat := rotr32 6 x ^^^ rotr32 11 x ^^^ rotr32 25 x

def shaSmallSigma0 (x : Nat) : Nat := rotr32 7 x ^^^ rotr32 18 x ^^^ (x >>> 3)

def shaSmallSigma1 (x : Nat) : Nat := rotr32 17 x ^^^ rotr32 19 x ^^^ (x >>> 10)

/-- Round constants of SHA-256, written in decimal. -/
def shaK : List Nat :=
  [1116352408, 1899447441, 3049323471, 3921009573,
   961987163, 1508970993, 2453635748, 2870763221,
   3624381080, 310598401, 607225278, 1426881987,
   1925078388, 2162078206, 2614888103, 3248222580,
   3835390401, 4022224774, 264347078, 604807628,
   770255983, 1249150122, 1555081692, 1996064986,
   2554220882, 2821834349, 2952996808, 3210313671,
   3336571891, 3584528711, 113926993, 338241895,
   666307205, 773529912, 1294757372, 1396182291,
   1695183700, 1986661051, 2177026350, 2456956037,
   2730485921, 2820302411, 3259730800, 3345764771,
   3516065817, 3600352804, 4094571909, 275423344,
   430227734, 506948616, 659060556, 883997877,
   958139571, 1322822218, 1537002063, 1747873779,
   1955562222, 2024104815, 2227730452, 2361852424,
   2428436474, 2756734187, 3204031479, 3329325298]

/-- Initial state of SHA-256, written in decimal. -/
def shaH0 : List Nat :=
  [1779033703, 3144134277, 1013904242, 2773480762,
   1359893119, 2600822924, 528734635, 1541459225]

/-- Big-endian byte decomposition, fixed width. -/
def beBytes : Nat → Nat → List Nat
  | 0, _ => []
  | w + 1, n => beBytes w (n / 256) ++ [n % 256]

def toWordsBE : List Nat → List Nat
  | b0 :: b1 :: b2 :: b3 :: rest =>
    (((b0 * 256 + b1) * 256 + b2) * 256 + b3) :: toWordsBE rest
  | _ => []

/-- SHA-256 padding: bit 1, zeros to 56 mod 64, 64-bit big-endian bit
length. -/
def shaPad (msg : List Nat) : List Nat :=
  msg ++ 128 :: List.replicate ((119 - msg.length % 64) % 64) 0 ++ beBytes 8 (8 * msg.length)

def shaExtendStep (ws : List Nat) : Nat :=
  w32mask (shaSmallSigma1 (ws.getD (ws.length - 2) 0) + ws.getD (ws.length - 7) 0 +
           shaSmallSigma0 (ws.getD (ws.length - 15) 0) + ws.getD (ws.length - 16) 0)

def shaExtend : Nat → List Nat → List Nat
  | 0, ws => ws
  | n + 1, ws => shaExtend n (ws ++ [shaExtendStep ws])

def shaRound (st : List Nat) (k : Nat) (w : Nat) : List Nat :=
  match st with
  | [a, b, c, d, e, f, g, hh] =>
    let t1 := w32mask (hh + shaBigSigma1 e + ((e &&& f) ^^^ ((e ^^^ 4294967295) &&& g)) + k + w)
    let t2 := w32mask (shaBigSigma0 a + ((a &&& b) ^^^ (a &&& c) ^^^ (b &&& c)))
    [w32mask (t1 + t2), a, b, c, w32mask (d + t1), e, f, g]
  | other => other

def shaRounds : List Nat → List Nat → List Nat → List Nat
  | st, k :: ks, w :: ws => shaRounds (shaRound st k w) ks ws
  | st, _, _ => st

def shaCompress (h : List Nat) (block : List Nat) : List Nat :=
  let ws := shaExtend 48 (toWordsBE block)
  let st := shaRounds h shaK ws
  List.zipWith (fun x y => w32mask (x + y)) h st

def shaBlocks (h : List Nat) (msg : List Nat) : List Nat :=
  if msg.isEmpty then h
  else shaBlocks (shaCompress h (msg.take 64)) (msg.drop 64)
termination_by msg.length
decreasing_by
  rename_i hne
  rw [List.length_drop]
  have : msg.length ≠ 0 := by
    intro h0
    exact hne (List.isEmpty_iff.mpr (List.length_eq_zero.mp h0))
  omega

def sha256 (msg : List Nat) : List Nat :=
  ((shaBlocks shaH0 (shaPad msg)).map (beBytes 4)).flatten

/-- Double SHA-256, the dhash256 primitive of the crypto crate. -/
def dhash256 (msg : List Nat) : List Nat := sha256 (sha256 msg)

def w64mask (n : Nat) : Nat := n % 18446744073709551616

def rotr64 (r x : Nat) : Nat := w64mask ((x >>> r) ||| (x <<< (64 - r)))

/-- Initialization vector of BLAKE2b, written in decimal. -/
def blakeIV : List Nat :=
  [7640891576956012808, 13503953896175478587,
   4354685564936845355, 11912009170470909681,
   5840696475078001361, 11170449401992604703,
   2270897969802886507, 6620516959819538809]

def blakeSigma : List (List Nat) :=
  [[0, 1, 2, 3, 4, 5, 6, 7, 8, 9, 10, 11, 12, 13, 14, 15],
   [14, 10, 4, 8, 9, 15, 13, 6, 1, 12, 0, 2, 11, 7, 5, 3],
   [11, 8, 12, 0, 5, 2, 15, 13, 10, 14, 3, 6, 7, 1, 9, 4],
   [7, 9, 3, 1, 13, 12, 11, 14, 2, 6, 5, 10, 4, 0, 15, 8],
   [9, 0, 5, 7, 2, 4, 10, 15, 14, 1, 11, 12, 6, 8, 3, 13],
   [2, 12, 6, 10, 0, 11, 8, 3, 4, 13, 7, 5, 15, 14, 1, 9],
   [12, 5, 1, 15, 14, 13, 4, 10, 0, 7, 6, 3, 9, 2, 8, 11],
   [13, 11, 7, 14, 12, 1, 3, 9, 5, 0, 15, 4, 8, 6, 2, 10],
   [6, 15, 14, 9, 11, 3, 0, 8, 12, 2, 13, 7, 1, 4, 10, 5],
   [10, 2, 8, 4, 7, 6, 1, 5, 15, 11, 9, 14, 3, 12, 13, 0]]

def toWordsLE : List Nat → List Nat
  | b0 :: b1 :: b2 :: b3 :: b4 :: b5 :: b6 :: b7 :: rest =>
    (b0 + 256 * (b1 + 256 * (b2 + 256 * (b3 + 256 * (b4 + 256 * (b5 + 256 * (b6 + 256 * b7)))))))
      :: toWordsLE rest
  | _ => []

def blakeG (v : List Nat) (a b c d x y : Nat) : List Nat :=
  let va := w64mask (v.getD a 0 + v.getD b 0 + x)
  let vd := rotr64 32 (v.getD d 0 ^^^ va)
  let vc := w64mask (v.getD c 0 + vd)
  let vb := rotr64 24 (v.getD b 0 ^^^ vc)
  let va2 := w64mask (va + vb + y)
  let vd2 := rotr64 16 (vd ^^^ va2)
  let vc2 := w64mask (vc + vd2)
  let vb2 := rotr64 63 (vb ^^^ vc2)
  (((v.set a va2).set b vb2).set c vc2).set d vd2

def blakeRound (m : List Nat) (v : List Nat) (r : Nat) : List Nat :=
  let s := blakeSigma.getD (r % 10) []
  let mi := fun i => m.getD (s.getD i 0) 0
  let v1 := blakeG v 0 4 8 12 (mi 0) (mi 1)
  let v2 := blakeG v1 1 5 9 13 (mi 2) (mi 3)
  let v3 := blakeG v2 2 6 10 14 (mi 4) (mi 5)
  let v4 := blakeG v3 3 7 11 15 (mi 6) (mi 7)
  let v5 := blakeG v4 0 5 10 15 (mi 8) (mi 9)
  let v6 := blakeG v5 1 6 11 12 (mi 10) (mi 11)
  let v7 := blakeG v6 2 7 8 13 (mi 12) (mi 13)
  blakeG v7 3 4 9 14 (mi 14) (mi 15)

def blakeCompress (h : List Nat) (block : List Nat) (t : Nat) (final : Bool) : List Nat :=
  let m := toWordsLE block
  let v0 := h ++ blakeIV
  let v1 := v0.set 12 (v0.getD 12 0 ^^^ w64mask t)
  let v2 := v1.set 13 (v1.getD 13 0 ^^^ (t / 18446744073709551616))
  let v3 := if final then v2.set 14 (v2.getD 14 0 ^^^ (18446744073709551616 - 1)) else v2
  let v := (List.range 12).foldl (blakeRound m) v3
  (List.range 8).map (fun i => h.getD i 0 ^^^ v.getD i 0 ^^^ v.getD (i + 8) 0)

def blakePad (block : List Nat) : List Nat :=
  block ++ List.replicate (128 - block.length) 0

def blakeBlocks (h : List Nat) (pending : List Nat) (count : Nat) : List Nat :=
  if pending.length ≤ 128 then
    blakeCompress h (blakePad pending) (count + pending.length) true
  else
    blakeBlocks (blakeCompress h (pending.take 128) (count + 128) false) (pending.drop 128)
      (count + 128)
termination_by pending.length
decreasing_by
  rename_i hgt
  rw [List.length_drop]
  omega

/-- BLAKE2b with 32-byte digest and a personalization string of up to 16
bytes (zero padded), as used by the Zcash sighash. -/
def blake2b256personal (input : List Nat) (personal : List Nat) : List Nat :=
  let pers := (personal ++ List.replicate 16 0).take 16
  let pw := toWordsLE pers
  let h := [blakeIV.getD 0 0 ^^^ 0x01010020,
            blakeIV.getD 1 0, blakeIV.getD 2 0, blakeIV.getD 3 0,
            blakeIV.getD 4 0, blakeIV.getD 5 0,
            blakeIV.getD 6 0 ^^^ pw.getD 0 0,
            blakeIV.getD 7 0 ^^^ pw.getD 1 0]
  (((blakeBlocks h input 0).take 4).map (leBytes 8)).flatten

/-- Transaction hash: double-SHA256 of the witness-excluded encoding. -/
def Transaction.hash (t : Transaction) : List Nat := dhash256 (serializeTx t false)

/-- Witness hash: double-SHA256 of the encoding with the witness flag on. -/
def Transaction.witness_hash (t : Transaction) : List Nat := dhash256 (serializeTx t true)

/-! Sighash flag model and the signature-hash engine, from
src/script/src/sign.rs. -/

inductive SignatureVersion where
  | Base : SignatureVersion
  | WitnessV0 : SignatureVersion
  | ForkId : SignatureVersion
deriving DecidableEq, Repr

inductive SighashBase where
  | All : SighashBase
  | None : SighashBase
  | Single : SighashBase
deriving DecidableEq, Repr

structure Sighash where
  base : SighashBase
  anyone_can_pay : Bool
  fork_id : Bool
deriving DecidableEq, Repr

/-- Strict hash-type validation used by SCRIPT_VERIFY_STRICTENC. -/
def Sighash.is_defined (version : SignatureVersion) (u : Nat) : Bool :=
  let u2 := match version with
    | SignatureVersion.ForkId => u &&& (2 ^ 32 - 1 - (0x40 ||| 0x80))
    | _ => u &&& (2 ^ 32 - 1 - 0x80)
  decide (u2 = 1 ∨ u2 = 2 ∨ u2 = 3)

/-- Lenient hash-type decomposition: always succeeds, even when is_defined
would reject the value. -/
def Sighash.from_u32 (version : SignatureVersion) (u : Nat) : Sighash :=
  { base :=
      if u &&& 0x1f = 2 then SighashBase.None
      else if u &&& 0x1f = 3 then SighashBase.Single
      else SighashBase.All,
    anyone_can_pay := decide (u &&& 0x80 = 0x80),
    fork_id := decide (version = SignatureVersion.ForkId ∧ u &&& 0x40 = 0x40) }

/-- Sentinel digest 1. Modelled from the spec: a 256-bit value with the low
byte set and the rest zero (H256 from the byte 1). -/
def sentinelDigest : List Nat := 1 :: List.replicate 31 0

/-- Separator stripping of the external Script collaborator. Modelled from
the spec: remove every OP_CODESEPARATOR (0xab) opcode, walking push
instructions so that pushed data bytes are never interpreted as opcodes. -/
def withoutSeparators : List Nat → List Nat
  | [] => []
  | b :: rest =>
    if b = 0xab then withoutSeparators rest
    else if 1 ≤ b ∧ b ≤ 75 then
      b :: (rest.take b ++ withoutSeparators (rest.drop b))
    else if b = 0x4c then
      match rest with
      | n :: rest2 => b :: n :: (rest2.take n ++ withoutSeparators (rest2.drop n))
      | [] => [b]
    else if b = 0x4d then
      match rest with
      | n0 :: n1 :: rest2 =>
        b :: n0 :: n1 ::
          (rest2.take (n0 + 256 * n1) ++ withoutSeparators (rest2.drop (n0 + 256 * n1)))
      | short => b :: short
    else if b = 0x4e then
      match rest with
      | n0 :: n1 :: n2 :: n3 :: rest2 =>
        b :: n0 :: n1 :: n2 :: n3 ::
          (rest2.take (n0 + 256 * (n1 + 256 * (n2 + 256 * n3))) ++
            withoutSeparators (rest2.drop (n0 + 256 * (n1 + 256 * (n2 + 256 * n3)))))
      | short => b :: short
    else b :: withoutSeparators rest
termination_by l => l.length
decreasing_by
  all_goals simp_all [List.length_drop]
  all_goals omega

structure UnsignedTransactionInput where
  previous_output : OutPoint
  sequence : Nat
  amount : Nat
deriving DecidableEq, Repr

/-- Signer snapshot. The fields n_time, zcash and str_d_zeel are carried by
the signer in sign.rs but have no counterpart in the chain Transaction
record of src/chain/src/transaction.rs and never reach the wire there. -/
structure TransactionInputSigner where
  version : Int
  n_time : Option Nat
  overwintered : Bool
  version_group_id : Nat
  consensus_branch_id : Nat
  expiry_height : Nat
  value_balance : Nat
  inputs : List UnsignedTransactionInput
  outputs : List TransactionOutput
  lock_time : Nat
  join_splits : List JoinSplit
  shielded_spends : List ShieldedSpend
  shielded_outputs : List ShieldedOutput
  zcash : Bool
  str_d_zeel : Option (List Nat)
deriving DecidableEq, Repr

def persBytes (s : String) : List Nat := s.toList.map Char.toNat

def persPrevouts : List Nat := persBytes "ZcashPrevoutHash"

def persSequence : List Nat := persBytes "ZcashSequencHash"

def persOutputs : List Nat := persBytes "ZcashOutputsHash"

def persJoinSplits : List Nat := persBytes "ZcashJSplitsHash"

def persShieldedSpends : List Nat := persBytes "ZcashSSpendsHash"

def persShieldedOutputs : List Nat := persBytes "ZcashSOutputHash"

def persSigHash : List Nat := persBytes "ZcashSigHash"

/-- ZIP-243 sighash, from signature_hash_overwintered. An out-of-range input
index panics in the source (unchecked indexing); that is the none case. -/
def sigHashOverwintered (signer : TransactionInputSigner) (input_index : Nat)
    (script_pubkey : List Nat) (sighashtype : Nat) (sighash : Sighash) :
    Option (Except String (List Nat)) :=
  match signer.inputs[input_index]? with
  | Option.none => Option.none
  | Option.some inp =>
    Option.some (Except.ok (blake2b256personal
      (u32LE (headerWord signer.version signer.overwintered)
        ++ u32LE signer.version_group_id
        ++ blake2b256personal
            ((signer.inputs.map (fun i => serOutPoint i.previous_output)).flatten) persPrevouts
        ++ blake2b256personal
            ((signer.inputs.map (fun i => u32LE i.sequence)).flatten) persSequence
        ++ blake2b256personal ((signer.outputs.map serOutput).flatten) persOutputs
        ++ (if 0 < signer.join_splits.length then
              blake2b256personal ((signer.join_splits.map serJoinSplit).flatten) persJoinSplits
            else h256Default)
        ++ (if 0 < signer.shielded_spends.length then
              blake2b256personal
                ((signer.shielded_spends.map
                  (fun sp => sp.cv ++ sp.anchor ++ sp.nullifier ++ sp.rk ++ sp.zkproof)).flatten)
                persShieldedSpends
            else h256Default)
        ++ (if 0 < signer.shielded_outputs.length then
              blake2b256personal
                ((signer.shielded_outputs.map serShieldedOutput).flatten) persShieldedOutputs
            else h256Default)
        ++ u32LE signer.lock_time
        ++ u32LE signer.expiry_height
        ++ u64LE signer.value_balance
        ++ u32LE sighashtype
        ++ serOutPoint inp.previous_output
        ++ serBytes script_pubkey
        ++ u64LE inp.amount
        ++ u32LE inp.sequence)
      (persSigHash ++
        (if 3 ≤ signer.version then u32LE signer.consensus_branch_id else []))))

/-- Legacy sighash, from signature_hash_original: sentinel guards, the
overwintered dispatch, then the modified-transaction construction. The none
case models a panic escaping the dispatched call. -/
def sigHashOriginal (signer : TransactionInputSigner) (input_index : Nat)
    (script_pubkey : List Nat) (sighashtype : Nat) (sighash : Sighash) :
    Option (List Nat) :=
  if hidx : signer.inputs.length ≤ input_index then Option.some sentinelDigest
  else if sighash.base = SighashBase.Single ∧ signer.outputs.length ≤ input_index then
    Option.some sentinelDigest
  else if 3 ≤ signer.version ∧ signer.overwintered = true then
    match sigHashOverwintered signer input_index script_pubkey sighashtype sighash with
    | Option.some (Except.ok h) => Option.some h
    | _ => Option.none
  else
    let sp := withoutSeparators script_pubkey
    let inputs :=
      if sighash.anyone_can_pay = true then
        let input := signer.inputs.get ⟨input_index, by omega⟩
        [{ previous_output := input.previous_output, script_sig := sp,
           sequence := input.sequence, script_witness := [] }]
      else
        signer.inputs.enum.map (fun p =>
          { previous_output := p.2.previous_output,
            script_sig := if p.1 = input_index then sp else [],
            sequence :=
              if (sighash.base = SighashBase.Single ∨ sighash.base = SighashBase.None) ∧
                  p.1 ≠ input_index then 0
              else p.2.sequence,
            script_witness := [] })
    let outputs :=
      match sighash.base with
      | SighashBase.All => signer.outputs
      | SighashBase.Single =>
        (signer.outputs.take (input_index + 1)).enum.map
          (fun p => if p.1 = input_index then p.2 else defaultTransactionOutput)
      | SighashBase.None => []
    let tx : Transaction :=
      { version := signer.version, overwintered := false, version_group_id := 0,
        inputs := inputs, outputs := outputs, lock_time := signer.lock_time,
        expiry_height := 0, shielded_spends := [], shielded_outputs := [],
        join_splits := [], value_balance := 0, join_split_pubkey := h256Default,
        join_split_sig := h512Default, binding_sig := h512Default }
    Option.some (dhash256 (serializeTx tx false ++ u32LE sighashtype))

def computeHashPrevouts (sighash : Sighash) (inputs : List UnsignedTransactionInput) :
    List Nat :=
  match sighash.anyone_can_pay with
  | false => dhash256 ((inputs.map (fun i => serOutPoint i.previous_output)).flatten)
  | true => h256Default

def computeHashSequence (sighash : Sighash) (inputs : List UnsignedTransactionInput) :
    List Nat :=
  if sighash.base = SighashBase.All ∧ sighash.anyone_can_pay = false then
    dhash256 ((inputs.map (fun i => u32LE i.sequence)).flatten)
  else h256Default

def computeHashOutputs (sighash : Sighash) (input_index : Nat)
    (outputs : List TransactionOutput) : List Nat :=
  if sighash.base = SighashBase.All then
    dhash256 ((outputs.map serOutput).flatten)
  else if sighash.base = SighashBase.Single ∧ input_index < outputs.length then
    dhash256 (serOutput (outputs.getD input_index defaultTransactionOutput))
  else h256Default

/-- BIP-143 sighash, from signature_hash_witness0; the input index is used
unchecked in the source, so an out-of-range index panics (none). -/
def sigHashWitness0 (signer : TransactionInputSigner) (input_index : Nat)
    (input_amount : Nat) (script_pubkey : List Nat) (sighashtype : Nat)
    (sighash : Sighash) : Option (List Nat) :=
  match signer.inputs[input_index]? with
  | Option.none => Option.none
  | Option.some inp =>
    Option.some (dhash256
      (u32LE ((signer.version.emod (2 ^ 32)).toNat)
        ++ computeHashPrevouts sighash signer.inputs
        ++ computeHashSequence sighash signer.inputs
        ++ serOutPoint inp.previous_output
        ++ serBytes script_pubkey
        ++ u64LE input_amount
        ++ u32LE inp.sequence
        ++ computeHashOutputs sighash input_index signer.outputs
        ++ u32LE signer.lock_time
        ++ u32LE sighashtype))

/-- Fork-id sighash, from signature_hash_fork_id: sentinel guards before
delegating to the witness algorithm. -/
def sigHashForkId (signer : TransactionInputSigner) (input_index : Nat)
    (input_amount : Nat) (script_pubkey : List Nat) (sighashtype : Nat)
    (sighash : Sighash) : Option (List Nat) :=
  if signer.inputs.length ≤ input_index then Option.some sentinelDigest
  else if sighash.base = SighashBase.Single ∧ signer.outputs.length ≤ input_index then
    Option.some sentinelDigest
  else sigHashWitness0 signer input_index input_amount script_pubkey sighashtype sighash

/-- Top-level dispatch, from signature_hash. -/
def signatureHash (signer : TransactionInputSigner) (input_index : Nat)
    (input_amount : Nat) (script_pubkey : List Nat)
    (sigversion : SignatureVersion) (sighashtype : Nat) : Option (List Nat) :=
  let sighash := Sighash.from_u32 sigversion sighashtype
  match sigversion with
  | SignatureVersion.ForkId =>
    if sighash.fork_id = true then
      sigHashForkId signer input_index input_amount script_pubkey sighashtype sighash
    else sigHashOriginal signer input_index script_pubkey sighashtype sighash
  | SignatureVersion.Base =>
    sigHashOriginal signer input_index script_pubkey sighashtype sighash
  | SignatureVersion.WitnessV0 =>
    sigHashWitness0 signer input_index input_amount script_pubkey sighashtype sighash

/-! Evaluation helpers for reader computations. -/

theorem ReadM.bind_eval {α β : Type} {m : ReadM α} {a : α} {s s1 : List Nat}
    (h : m s = Except.ok (a, s1)) (f : α → ReadM β) :
    (m >>= f) s = f a s1 := by
  rw [ReadM.bind_def]
  unfold ReadM.bind
  rw [h]

theorem ReadM.bind_eval_error {α β : Type} {m : ReadM α} {e : SerError} {s : List Nat}
    (h : m s = Except.error e) (f : α → ReadM β) :
    (m >>= f) s = Except.error e := by
  rw [ReadM.bind_def]
  unfold ReadM.bind
  rw [h]

theorem ReadM.bind_transport {α β : Type} {m m2 : ReadM α} {s s2 : List Nat}
    (h : m s = m2 s2) (f : α → ReadM β) :
    (m >>= f) s = (m2 >>= f) s2 := by
  rw [ReadM.bind_def, ReadM.bind_def]
  unfold ReadM.bind
  rw [h]

theorem ReadM.bind_congr_fn {α β : Type} {m : ReadM α} {f g : α → ReadM β} {s : List Nat}
    (h : ∀ a s1, f a s1 = g a s1) :
    (m >>= f) s = (m >>= g) s := by
  rw [ReadM.bind_def, ReadM.bind_def]
  unfold ReadM.bind
  cases m s with
  | ok p => exact h p.1 p.2
  | error e => rfl

/-- In-range indices make the overwintered sighash return an Ok digest. -/
theorem sigHashOverwintered_some (signer : TransactionInputSigner) (input_index : Nat)
    (script_pubkey : List Nat) (sighashtype : Nat) (sighash : Sighash)
    (h : input_index < signer.inputs.length) :
    ∃ d, sigHashOverwintered signer input_index script_pubkey sighashtype sighash =
      Option.some (Except.ok d) := by
  unfold sigHashOverwintered
  rw [List.getElem?_eq_getElem h]
  exact ⟨_, rfl⟩

/-- The legacy entry point never panics: every call produces a value. -/
theorem sigHashOriginal_isSome (signer : TransactionInputSigner) (input_index : Nat)
    (script_pubkey : List Nat) (sighashtype : Nat) (sighash : Sighash) :
    (sigHashOriginal signer input_index script_pubkey sighashtype sighash).isSome = true := by
  unfold sigHashOriginal
  by_cases h1 : signer.inputs.length ≤ input_index
  · rw [dif_pos h1]
    rfl
  · rw [dif_neg h1]
    by_cases h2 : sighash.base = SighashBase.Single ∧ signer.outputs.length ≤ input_index
    · rw [if_pos h2]
      rfl
    · rw [if_neg h2]
      by_cases h3 : 3 ≤ signer.version ∧ signer.overwintered = true
      · rw [if_pos h3]
        obtain ⟨d, hd⟩ := sigHashOverwintered_some signer input_index script_pubkey sighashtype
          sighash (by omega)
        rw [hd]
        rfl
      · rw [if_neg h3]
        rfl

theorem ReadM.bind_assoc_apply {α β γ : Type} {m : ReadM α} {g : α → ReadM β}
    {k : β → ReadM γ} {s : List Nat} :
    ((m >>= g) >>= k) s = (m >>= fun x => (g x >>= k)) s := by
  simp only [ReadM.bind_def]
  unfold ReadM.bind
  cases m s with
  | ok p => rfl
  | error e => rfl

/-- Modelled from the spec (witness-detection rule): once the empty input
list and the marker byte 1 were consumed, the input list is re-read, the
output list is read, each input witness stack is read in input order, then
the lock time and the remaining non-overwintered sections follow. -/
def specWitnessTailDecode (version : Int) : ReadM (Transaction × Bool) := do
  let inputs0 ← readList readInput
  let outputs ← readList readOutput
  let inputs ← readWitnessStacks inputs0
  let lock_time ← readU32
  let jsx ← readJoinSplitsSection false version
  Pure.pure ({ version := version, overwintered := false, version_group_id := 0,
               inputs := inputs, outputs := outputs, lock_time := lock_time,
               expiry_height := 0, shielded_spends := [], shielded_outputs := [],
               join_splits := jsx.1, value_balance := 0, join_split_pubkey := jsx.2.1,
               join_split_sig := jsx.2.2, binding_sig := h512Default }, true)

/-- Claim C8: on a non-overwintered stream whose first input list decodes empty,
the next byte is a witness marker: a value other than 1 aborts the decode
with MalformedData, and the value 1 re-reads the input list and later reads
each input witness stack in input order. -/
theorem witness_marker_rule (bs s1 s2 s3 : List Nat) (header b : Nat)
    (hheader : readU32 bs = Except.ok (header, s1))
    (hno : header < 2 ^ 31)
    (hempty : readList readInput s1 = Except.ok (([] : List TransactionInput), s2))
    (hflag : readByte s2 = Except.ok (b, s3)) :
    (b ≠ 1 → deserializeTx bs = Except.error SerError.MalformedData)
    ∧ (b = 1 → deserializeTx bs = specWitnessTailDecode (headerVersion header) s3) := by
  have hov : headerOverwintered header = false := by
    unfold headerOverwintered
    simp only [decide_eq_false_iff_not]
    omega
  constructor
  · intro hb
    unfold deserializeTx
    rw [ReadM.bind_eval hheader, hov]
    rw [ReadM.bind_eval (show readVersionGroupId false s1 = Except.ok (0, s1) from rfl)]
    have hiaf : readInputsAndFlag false s1 = Except.error SerError.MalformedData := by
      unfold readInputsAndFlag
      rw [ReadM.bind_eval hempty]
      rw [if_pos ⟨rfl, rfl⟩]
      rw [ReadM.bind_eval hflag]
      rw [if_pos hb]
      rfl
    rw [ReadM.bind_eval_error hiaf]
  · intro hb
    subst hb
    unfold deserializeTx specWitnessTailDecode
    rw [ReadM.bind_eval hheader, hov]
    rw [ReadM.bind_eval (show readVersionGroupId false s1 = Except.ok (0, s1) from rfl)]
    have hiaf2 : readInputsAndFlag false s1 =
        (readList readInput >>= (fun i2 => Pure.pure (i2, true))) s3 := by
      unfold readInputsAndFlag
      rw [ReadM.bind_eval hempty]
      rw [if_pos ⟨rfl, rfl⟩]
      rw [ReadM.bind_eval hflag]
      rw [if_neg (by omega : ¬(1 ≠ 1))]
    rw [ReadM.bind_transport hiaf2]
    rw [ReadM.bind_assoc_apply]
    apply ReadM.bind_congr_fn
    intro a s4
    rw [ReadM.bind_eval (ReadM.pure_apply (a, true) s4)]
    apply ReadM.bind_congr_fn
    intro outs s5
    have hws : readWitnessSection (a, true).2 (a, true).1 = readWitnessStacks a := rfl
    rw [hws]
    apply ReadM.bind_congr_fn
    intro ins s6
    apply ReadM.bind_congr_fn
    intro lt s7
    have howe : readOverwinterExtras false (headerVersion header) s7 =
        Except.ok ((0, 0, ([] : List ShieldedSpend), ([] : List ShieldedOutput)), s7) := by
      unfold readOverwinterExtras
      rw [if_neg (fun hand => Bool.noConfusion hand.1)]
      rfl
    rw [ReadM.bind_eval howe]
    apply ReadM.bind_congr_fn
    intro jsx s8
    have hbsg : readBindingSig
        (false = true ∧ 4 ≤ headerVersion header ∧
          ¬(((0, 0, ([] : List ShieldedSpend), ([] : List ShieldedOutput)) :
              Nat × Nat × List ShieldedSpend × List ShieldedOutput).2.2.1.length = 0 ∧
            ((0, 0, ([] : List ShieldedSpend), ([] : List ShieldedOutput)) :
              Nat × Nat × List ShieldedSpend × List ShieldedOutput).2.2.2.length = 0)) s8 =
        Except.ok (h512Default, s8) := by
      unfold readBindingSig
      rw [if_neg (fun hand => Bool.noConfusion hand.1)]
      rfl
    rw [ReadM.bind_eval hbsg]

def defaultUnsignedInput : UnsignedTransactionInput :=
  { previous_output := { hash := h256Default, index := 0 }, sequence := 0, amount := 0 }

theorem getD_eq_get_of_lt {α : Type} {l : List α} {n : Nat} {d : α} (h : n < l.length) :
    l.getD n d = l.get ⟨n, h⟩ := by
  rw [List.getD_eq_getElem?_getD, List.getElem?_eq_getElem h]
  rfl

/-- Modified transaction described by the specification for the legacy
sighash algorithm: under anyone_can_pay a single input (the signed one)
whose script_sig is the stripped script; otherwise all inputs with empty
script_sig except the signed one and, for Single or None, zeroed sequences
on every other input; outputs kept, truncated and blanked, or dropped,
according to the base; all Zcash extension fields zeroed. -/
def specModifiedTransaction (signer : TransactionInputSigner) (input_index : Nat)
    (strippedScript : List Nat) (sighash : Sighash) : Transaction :=
  { version := signer.version,
    overwintered := false,
    version_group_id := 0,
    inputs :=
      if sighash.anyone_can_pay = true then
        [{ previous_output := (signer.inputs.getD input_index defaultUnsignedInput).previous_output,
           script_sig := strippedScript,
           sequence := (signer.inputs.getD input_index defaultUnsignedInput).sequence,
           script_witness := [] }]
      else
        signer.inputs.enum.map (fun p =>
          { previous_output := p.2.previous_output,
            script_sig := if p.1 = input_index then strippedScript else [],
            sequence :=
              if (sighash.base = SighashBase.Single ∨ sighash.base = SighashBase.None) ∧
                  p.1 ≠ input_index then 0
              else p.2.sequence,
            script_witness := [] }),
    outputs :=
      match sighash.base with
      | SighashBase.All => signer.outputs
      | SighashBase.Single =>
        (signer.outputs.take (input_index + 1)).enum.map
          (fun p => if p.1 = input_index then p.2 else defaultTransactionOutput)
      | SighashBase.None => [],
    lock_time := signer.lock_time,
    expiry_height := 0, shielded_spends := [], shielded_outputs := [],
    join_splits := [], value_balance := 0, join_split_pubkey := h256Default,
    join_split_sig := h512Default, binding_sig := h512Default }

/-- Claim C2: when the legacy algorithm is selected, signature_hash_original is
the double-SHA256 of the serialized modified transaction described by the
specification, followed by the 32-bit hash type. -/
theorem signature_hash_original_legacy_spec (signer : TransactionInputSigner)
    (input_index : Nat) (script_pubkey : List Nat) (sighashtype : Nat) (sighash : Sighash)
    (hleg : ¬(3 ≤ signer.version ∧ signer.overwintered = true))
    (hin : input_index < signer.inputs.length)
    (hsingle : sighash.base = SighashBase.Single → input_index < signer.outputs.length) :
    sigHashOriginal signer input_index script_pubkey sighashtype sighash =
      Option.some (dhash256 (serializeTx
        (specModifiedTransaction signer input_index (withoutSeparators script_pubkey) sighash)
        false ++ u32LE sighashtype)) := by
  unfold sigHashOriginal
  rw [dif_neg (by omega : ¬(signer.inputs.length ≤ input_index))]
  rw [if_neg (fun hand => absurd (hsingle hand.1) (by omega))]
  rw [if_neg hleg]
  unfold specModifiedTransaction
  by_cases hacp : sighash.anyone_can_pay = true
  · simp [hacp, List.getElem?_eq_getElem hin]
  · simp [hacp]

/-- Two spellings of the emptiness test on a list select the same branch. -/
theorem ite_isEmpty_length {α β : Type} (l : List α) (x y : β) :
    (if 0 < l.length then x else y) = (if l.isEmpty = true then y else x) := by
  cases l <;> simp

/-- Preimage of the ZIP-243 sighash as the specification describes it. -/
def specOverwinteredPreimage (signer : TransactionInputSigner) (input_index : Nat)
    (script_pubkey : List Nat) (sighashtype : Nat) : List Nat :=
  u32LE (headerWord signer.version true)
  ++ u32LE signer.version_group_id
  ++ blake2b256personal
      ((signer.inputs.map (fun i => serOutPoint i.previous_output)).flatten) persPrevouts
  ++ blake2b256personal ((signer.inputs.map (fun i => u32LE i.sequence)).flatten) persSequence
  ++ blake2b256personal ((signer.outputs.map serOutput).flatten) persOutputs
  ++ (if signer.join_splits.isEmpty = true then h256Default
      else blake2b256personal ((signer.join_splits.map serJoinSplit).flatten) persJoinSplits)
  ++ (if signer.shielded_spends.isEmpty = true then h256Default
      else blake2b256personal
        ((signer.shielded_spends.map
          (fun sp => sp.cv ++ sp.anchor ++ sp.nullifier ++ sp.rk ++ sp.zkproof)).flatten)
        persShieldedSpends)
  ++ (if signer.shielded_outputs.isEmpty = true then h256Default
      else blake2b256personal
        ((signer.shielded_outputs.map serShieldedOutput).flatten) persShieldedOutputs)
  ++ u32LE signer.lock_time
  ++ u32LE signer.expiry_height
  ++ u64LE signer.value_balance
  ++ u32LE sighashtype
  ++ serOutPoint (signer.inputs.getD input_index defaultUnsignedInput).previous_output
  ++ serBytes script_pubkey
  ++ u64LE (signer.inputs.getD input_index defaultUnsignedInput).amount
  ++ u32LE (signer.inputs.getD input_index defaultUnsignedInput).sequence

/-- Claim C3: for an overwintered signer of version at least 3 and an in-range
index, signature_hash_overwintered is BLAKE2b-256 of the specified preimage
under the ZcashSigHash personalization extended with the little-endian
consensus branch id. -/
theorem signature_hash_overwintered_spec (signer : TransactionInputSigner)
    (input_index : Nat) (script_pubkey : List Nat) (sighashtype : Nat) (sighash : Sighash)
    (hv : 3 ≤ signer.version) (how : signer.overwintered = true)
    (hin : input_index < signer.inputs.length) :
    sigHashOverwintered signer input_index script_pubkey sighashtype sighash =
      Option.some (Except.ok (blake2b256personal
        (specOverwinteredPreimage signer input_index script_pubkey sighashtype)
        (persSigHash ++ u32LE signer.consensus_branch_id))) := by
  unfold sigHashOverwintered specOverwinteredPreimage
  rw [List.getElem?_eq_getElem hin]
  simp [ite_isEmpty_length, how, if_pos hv, List.getElem?_eq_getElem hin]

/-! Concrete fixtures used by witnesses and counterexamples. -/

def sighashAll : Sighash :=
  { base := SighashBase.All, anyone_can_pay := false, fork_id := false }

/-- Signer with no inputs (and the Sapling version gates set). -/
def emptySigner : TransactionInputSigner :=
  { version := 4, n_time := Option.none, overwintered := true,
    version_group_id := 0x892f2085, consensus_branch_id := 0x76b809bb,
    expiry_height := 0, value_balance := 0, inputs := [],
    outputs := [], lock_time := 0, join_splits := [], shielded_spends := [],
    shielded_outputs := [], zcash := false, str_d_zeel := Option.none }

/-- Non-overwintered signer with one input and one output. -/
def oneInputSigner : TransactionInputSigner :=
  { version := 1, n_time := Option.none, overwintered := false,
    version_group_id := 0, consensus_branch_id := 0, expiry_height := 0,
    value_balance := 0, inputs := [defaultUnsignedInput],
    outputs := [{ value := 1, script_pubkey := [] }], lock_time := 0,
    join_splits := [], shielded_spends := [], shielded_outputs := [],
    zcash := false, str_d_zeel := Option.none }

/-- Claim C4 counterexample: called directly with an out-of-range input index,
signature_hash_overwintered hits unchecked vector indexing and panics
(modelled as none), contradicting the no-panic claim. -/
theorem signature_hash_overwintered_panic_cex :
    sigHashOverwintered emptySigner 0 [] 1 sighashAll = Option.none := rfl

/-- Claim C4 (amended): for an in-range input index signature_hash_overwintered
always returns Ok (there is no error case at all), and the dispatch inside
signature_hash_original can never panic, whatever the index. -/
theorem signature_hash_engine_no_panic_amended :
    (∀ signer input_index script_pubkey sighashtype sighash,
      input_index < signer.inputs.length →
      ∃ d, sigHashOverwintered signer input_index script_pubkey sighashtype sighash =
        Option.some (Except.ok d))
    ∧ (∀ signer input_index script_pubkey sighashtype sighash,
      (sigHashOriginal signer input_index script_pubkey sighashtype sighash).isSome = true) :=
  ⟨fun signer i sp ty sh h => sigHashOverwintered_some signer i sp ty sh h,
   fun signer i sp ty sh => sigHashOriginal_isSome signer i sp ty sh⟩

/-- Claim C4 witness: the amended theorem applied at a concrete in-range call. -/
theorem signature_hash_engine_no_panic_witness :
    (∃ d, sigHashOverwintered oneInputSigner 0 [] 1 sighashAll =
      Option.some (Except.ok d))
    ∧ (sigHashOriginal oneInputSigner 0 [] 1 sighashAll).isSome = true :=
  ⟨signature_hash_engine_no_panic_amended.1 oneInputSigner 0 [] 1 sighashAll (by decide),
   signature_hash_engine_no_panic_amended.2 oneInputSigner 0 [] 1 sighashAll⟩

/-- Claim C5 counterexample: under WitnessV0 an out-of-range input index crashes
(unchecked indexing in signature_hash_witness0) instead of returning the
sentinel digest. -/
theorem signature_hash_witness_v0_crash_cex :
    signatureHash emptySigner 0 0 [] SignatureVersion.WitnessV0 1 = Option.none ∧
    signatureHash emptySigner 0 0 [] SignatureVersion.WitnessV0 1 ≠
      Option.some sentinelDigest := by
  constructor
  · rfl
  · decide

/-- Claim C5 (amended): only the ForkId dispatch (fork_id bit set) guards the index
and returns the sentinel digest on out-of-range; the WitnessV0 dispatch is
unguarded and panics when the index is at or beyond the number of inputs. -/
theorem signature_hash_out_of_range_sentinel_amended :
    (∀ signer input_index input_amount script_pubkey u,
      u &&& 0x40 = 0x40 →
      (signer.inputs.length ≤ input_index ∨
        ((Sighash.from_u32 SignatureVersion.ForkId u).base = SighashBase.Single ∧
          signer.outputs.length ≤ input_index)) →
      signatureHash signer input_index input_amount script_pubkey SignatureVersion.ForkId u =
        Option.some sentinelDigest)
    ∧ (∀ signer input_index input_amount script_pubkey u,
      signer.inputs.length ≤ input_index →
      signatureHash signer input_index input_amount script_pubkey SignatureVersion.WitnessV0 u =
        Option.none) := by
  constructor
  · intro signer idx amt sp u hbit hoor
    have hfid : (Sighash.from_u32 SignatureVersion.ForkId u).fork_id = true := by
      unfold Sighash.from_u32
      simp [hbit]
    simp only [signatureHash]
    rw [if_pos hfid]
    unfold sigHashForkId
    by_cases h1 : signer.inputs.length ≤ idx
    · rw [if_pos h1]
    · rw [if_neg h1]
      rcases hoor with h1' | h2
      · exact absurd h1' h1
      · rw [if_pos h2]
  · intro signer idx amt sp u hoor
    simp only [signatureHash]
    unfold sigHashWitness0
    rw [List.getElem?_eq_none hoor]

/-- Claim C5 witness: the amended theorem applied at concrete out-of-range calls. -/
theorem signature_hash_out_of_range_sentinel_witness :
    signatureHash oneInputSigner 5 0 [] SignatureVersion.ForkId 0x41 =
      Option.some sentinelDigest ∧
    signatureHash oneInputSigner 5 0 [] SignatureVersion.WitnessV0 1 = Option.none :=
  ⟨signature_hash_out_of_range_sentinel_amended.1 oneInputSigner 5 0 [] 0x41 (by decide)
    (Or.inl (by decide)),
   signature_hash_out_of_range_sentinel_amended.2 oneInputSigner 5 0 [] 1 (by decide)⟩

/-- Claim C6: an out-of-range signed input index, or a Single base without a
matching output slot, makes signature_hash_original return the sentinel
digest 1 before any hashing and before the overwintered dispatch. -/
theorem signature_hash_original_sentinel (signer : TransactionInputSigner)
    (input_index : Nat) (script_pubkey : List Nat) (sighashtype : Nat) (sighash : Sighash)
    (h : signer.inputs.length ≤ input_index ∨
      (sighash.base = SighashBase.Single ∧ signer.outputs.length ≤ input_index)) :
    sigHashOriginal signer input_index script_pubkey sighashtype sighash =
      Option.some sentinelDigest := by
  unfold sigHashOriginal
  by_cases h1 : signer.inputs.length ≤ input_index
  · rw [dif_pos h1]
  · rw [dif_neg h1]
    rcases h with h1' | h2
    · exact absurd h1' h1
    · rw [if_pos h2]

/-- Claim C6 witness: applied on an overwintered signer with no inputs: the sentinel is
returned and the overwintered path is never consulted. -/
theorem signature_hash_original_sentinel_witness :
    sigHashOriginal emptySigner 0 [] 1 sighashAll = Option.some sentinelDigest :=
  signature_hash_original_sentinel emptySigner 0 [] 1 sighashAll (Or.inl (by decide))

/-- Claim C9: the lenient hash-type decomposition (which always succeeds): the low
five bits select the base with 2 as None, 3 as Single, anything else
including 0 as All; bit 0x80 is anyone_can_pay; bit 0x40 is fork_id only
under the ForkId signature version. -/
theorem sighash_from_u32_decomposition (version : SignatureVersion) (u : Nat) :
    ((Sighash.from_u32 version u).base = SighashBase.None ↔ u &&& 0x1f = 2)
    ∧ ((Sighash.from_u32 version u).base = SighashBase.Single ↔ u &&& 0x1f = 3)
    ∧ ((Sighash.from_u32 version u).base = SighashBase.All ↔
        (u &&& 0x1f ≠ 2 ∧ u &&& 0x1f ≠ 3))
    ∧ ((Sighash.from_u32 version u).anyone_can_pay = true ↔ u &&& 0x80 = 0x80)
    ∧ ((Sighash.from_u32 version u).fork_id = true ↔
        (version = SignatureVersion.ForkId ∧ u &&& 0x40 = 0x40)) := by
  unfold Sighash.from_u32
  by_cases h2 : u &&& 0x1f = 2 <;> by_cases h3 : u &&& 0x1f = 3 <;>
    simp [h2, h3]

def sumOfValues (outputs : List TransactionOutput) : Nat :=
  (outputs.map TransactionOutput.value).sum

theorem sumOfValues_cons (o : TransactionOutput) (os : List TransactionOutput) :
    sumOfValues (o :: os) = o.value + sumOfValues os := by
  simp [sumOfValues]

theorem totalSpendsLoop_spec :
    ∀ (outputs : List TransactionOutput) (result : Nat), result < 2 ^ 64 →
      (result + sumOfValues outputs < 2 ^ 64 →
        totalSpendsLoop result outputs = result + sumOfValues outputs)
      ∧ (2 ^ 64 ≤ result + sumOfValues outputs →
        totalSpendsLoop result outputs = 2 ^ 64 - 1) := by
  intro outputs
  induction outputs with
  | nil =>
    intro result hres
    constructor
    · intro _
      simp [totalSpendsLoop, sumOfValues]
    · intro hbig
      simp [sumOfValues] at hbig
      omega
  | cons o os ih =>
    intro result hres
    rw [sumOfValues_cons]
    unfold totalSpendsLoop
    by_cases hc : 2 ^ 64 - 1 - result < o.value
    · rw [if_pos hc]
      constructor
      · intro hfit
        omega
      · intro _
        rfl
    · rw [if_neg hc]
      have hnext := ih (result + o.value) (by omega)
      constructor
      · intro hfit
        rw [hnext.1 (by omega)]
        omega
      · intro hbig
        exact hnext.2 (by omega)

/-- Claim C10: total_spends is the exact sum of the output values when that sum
fits in a u64, and saturates to the u64 maximum instead of wrapping when
the running sum would overflow. -/
theorem total_spends_saturating (tx : Transaction) :
    (sumOfValues tx.outputs < 2 ^ 64 → tx.total_spends = sumOfValues tx.outputs)
    ∧ (2 ^ 64 ≤ sumOfValues tx.outputs → tx.total_spends = 2 ^ 64 - 1) := by
  have h := totalSpendsLoop_spec tx.outputs 0 (by norm_num)
  unfold Transaction.total_spends
  simpa using h

def smallSpendsTx : Transaction :=
  { version := 1, overwintered := false, version_group_id := 0, inputs := [],
    outputs := [{ value := 7, script_pubkey := [] }, { value := 5, script_pubkey := [] }],
    lock_time := 0, expiry_height := 0, shielded_spends := [], shielded_outputs := [],
    join_splits := [], value_balance := 0, join_split_pubkey := h256Default,
    join_split_sig := h512Default, binding_sig := h512Default }

def hugeSpendsTx : Transaction :=
  { version := 1, overwintered := false, version_group_id := 0, inputs := [],
    outputs := [{ value := 2 ^ 64 - 1, script_pubkey := [] },
                { value := 2, script_pubkey := [] }],
    lock_time := 0, expiry_height := 0, shielded_spends := [], shielded_outputs := [],
    join_splits := [], value_balance := 0, join_split_pubkey := h256Default,
    join_split_sig := h512Default, binding_sig := h512Default }

/-- Claim C10 witness: exact sum on a small transaction, saturation on an
overflowing one. -/
theorem total_spends_saturating_witness :
    smallSpendsTx.total_spends = sumOfValues smallSpendsTx.outputs ∧
    hugeSpendsTx.total_spends = 2 ^ 64 - 1 :=
  ⟨(total_spends_saturating smallSpendsTx).1 (by decide),
   (total_spends_saturating hugeSpendsTx).2 (by decide)⟩

/-- Witness-framed encoding of a one-input transaction whose only witness
stack is empty. -/
def c1CexBytes : List Nat :=
  [1, 0, 0, 0] ++ [0] ++ [1] ++ [1] ++ List.replicate 32 0 ++ [0, 0, 0, 0] ++ [0] ++
  [255, 255, 255, 255] ++ [0] ++ [0] ++ [0, 0, 0, 0]

def c1CexTx : Transaction :=
  { version := 1, overwintered := false, version_group_id := 0,
    inputs := [{ previous_output := { hash := List.replicate 32 0, index := 0 },
                 script_sig := [], sequence := 4294967295, script_witness := [] }],
    outputs := [], lock_time := 0, expiry_height := 0, shielded_spends := [],
    shielded_outputs := [], join_splits := [], value_balance := 0,
    join_split_pubkey := h256Default, join_split_sig := h512Default,
    binding_sig := h512Default }

/-- Claim C1 counterexample: this byte sequence decodes successfully through the
witness-marker layout, but every decoded witness stack is empty, so
has_witness is false and re-encoding with the same witness-inclusion flag
takes the legacy layout and drops the marker, flag and witness bytes. -/
theorem roundtrip_counterexample :
    deserializeTx c1CexBytes = Except.ok ((c1CexTx, true), []) ∧
    serializeTx c1CexTx true ≠ c1CexBytes := by
  constructor
  · rfl
  · decide

/-- Witness-framed encoding of a one-input transaction with a one-item
witness stack. -/
def c1WitnessBytes : List Nat :=
  [1, 0, 0, 0] ++ [0] ++ [1] ++ [1] ++ List.replicate 32 0 ++ [0, 0, 0, 0] ++ [0] ++
  [255, 255, 255, 255] ++ [0] ++ [1, 1, 42] ++ [0, 0, 0, 0]

def c1WitnessTx : Transaction :=
  { version := 1, overwintered := false, version_group_id := 0,
    inputs := [{ previous_output := { hash := List.replicate 32 0, index := 0 },
                 script_sig := [], sequence := 4294967295, script_witness := [[42]] }],
    outputs := [], lock_time := 0, expiry_height := 0, shielded_spends := [],
    shielded_outputs := [], join_splits := [], value_balance := 0,
    join_split_pubkey := h256Default, join_split_sig := h512Default,
    binding_sig := h512Default }

/-- Claim C1 witness: the amended round-trip theorem applied on a concrete witness-framed
transaction that satisfies the side conditions. -/
theorem roundtrip_witness_concrete :
    serializeTx c1WitnessTx true ++ ([] : List Nat) = c1WitnessBytes :=
  deserialize_serialize_roundtrip (by rfl) (fun _ => ⟨rfl, by decide⟩)

/-- Overwintered Sapling signer with one input. -/
def owSigner : TransactionInputSigner :=
  { emptySigner with inputs := [defaultUnsignedInput] }

/-- Claim C2 witness: the theorem applied at a concrete legacy signer. -/
theorem signature_hash_original_legacy_spec_witness :
    sigHashOriginal oneInputSigner 0 [171] 1 sighashAll =
      Option.some (dhash256 (serializeTx
        (specModifiedTransaction oneInputSigner 0 (withoutSeparators [171]) sighashAll)
        false ++ u32LE 1)) :=
  signature_hash_original_legacy_spec oneInputSigner 0 [171] 1 sighashAll
    (by decide) (by decide) (by decide)

/-- Claim C3 witness: the theorem applied at a concrete Sapling signer. -/
theorem signature_hash_overwintered_spec_witness :
    sigHashOverwintered owSigner 0 [] 1 sighashAll =
      Option.some (Except.ok (blake2b256personal
        (specOverwinteredPreimage owSigner 0 [] 1)
        (persSigHash ++ u32LE owSigner.consensus_branch_id))) :=
  signature_hash_overwintered_spec owSigner 0 [] 1 sighashAll
    (by decide) (by decide) (by decide)

/-- Claim C8 witness: the theorem applied on a concrete six-byte stream
(version 1, empty input list, marker byte 0). -/
theorem witness_marker_rule_witness :
    ((0 : Nat) ≠ 1 →
      deserializeTx [1, 0, 0, 0, 0, 0] = Except.error SerError.MalformedData)
    ∧ ((0 : Nat) = 1 →
      deserializeTx [1, 0, 0, 0, 0, 0] = specWitnessTailDecode (headerVersion 1) []) :=
  witness_marker_rule [1, 0, 0, 0, 0, 0] [0, 0] [0] [] 1 0
    (by rfl) (by decide) (by rfl) (by rfl)

/-- The transaction hash is computed over the witness-excluded encoding,
whether or not the transaction carries witness data. -/
theorem hash_uses_raw_encoding (t : Transaction) : t.hash = dhash256 (serializeTxRaw t) := rfl

/-- When no input carries witness data, the witness hash agrees with the
plain hash (the two encodings coincide). -/
theorem witness_hash_eq_hash_of_no_witness (t : Transaction) (h : t.has_witness = false) :
    t.witness_hash = t.hash := by
  unfold Transaction.witness_hash Transaction.hash serializeTx
  rw [h]
  simp

end ParityBtc
